import Mathlib

/-!
# StellarFrpc: the root command of the tunnel client (`cmd/frpc/sub/root.go`)

A shallow embedding of `rootCmd.RunE`, `getUserTunnels`, `runMultipleClients`,
`runClient`, `startService` and `handleTermSignal`.

The packages the file imports (`config`, `validation`, `client`, `net/http`,
`encoding/json`) are collaborators: their results are fields of `Env` and
`World`, and each call to one of them is recorded as an `Event`, so that the
order and the number of calls made by `root.go` can be stated.
A call that blocks (`svr.Run`, and so `startService` and `runClient`) has a
`CallResult`: the error it returns, or the fact that it never returns.
`path/filepath.WalkDir` is embedded from the Go standard library over a finite
file tree, with `filepath.Join` a field of the file system.  The goroutines of `runMultipleClients` are a scheduler-driven
machine: a schedule is a list of thread ids and every interleaving is a
schedule.
-/

namespace StellarFrpc

/-! ## Data of the collaborators -/

/-- A Go `error` value (non-nil); `Option GoError` is the Go type `error`. -/
structure GoError where
  msg : String
  deriving DecidableEq, Repr

/-- The fields of `v1.ClientCommonConfig` read by `root.go`:
`cfg.Log.*` and `cfg.Transport.Protocol`. -/
structure ClientCommonConfig where
  logTo : String
  logLevel : String
  logMaxDays : Int
  logDisablePrintColor : Bool
  transportProtocol : String
  deriving DecidableEq, Repr

/-- A `v1.ProxyConfigurer`, kept by name. -/
structure ProxyConfigurer where
  name : String
  deriving DecidableEq, Repr

/-- A `v1.VisitorConfigurer`, kept by name. -/
structure VisitorConfigurer where
  name : String
  deriving DecidableEq, Repr

/-- The argument `client.ServiceOptions` built by `startService`. -/
structure ServiceOptions where
  common : ClientCommonConfig
  proxyCfgs : List ProxyConfigurer
  visitorCfgs : List VisitorConfigurer
  configFilePath : String
  deriving DecidableEq, Repr

/-- A `*client.Service` handle. -/
structure Service where
  id : Nat
  deriving DecidableEq, Repr

/-- The four non-error results of `config.LoadClientConfig`. -/
structure LoadedConfig where
  cfg : ClientCommonConfig
  proxyCfgs : List ProxyConfigurer
  visitorCfgs : List VisitorConfigurer
  isLegacyFormat : Bool
  deriving DecidableEq, Repr

/-- How a call that may block ends: it returns an error value (nil or not), or
it never returns (a service that stays up keeps `svr.Run` from returning). -/
inductive CallResult where
  | returned (err : Option GoError)
  | blocks
  deriving DecidableEq, Repr

/-- The call returns. -/
def CallResult.returns : CallResult → Bool
  | CallResult.returned _ => true
  | CallResult.blocks => false

/-- The call returns an error that is not nil. -/
def CallResult.failed : CallResult → Bool
  | CallResult.returned (some _) => true
  | _ => false

/-- What `root.go` does that is visible outside it: the calls it makes to its
collaborators and the lines it prints or logs. -/
inductive Event where
  /-- The line `fmt.Println(version.Full())`. -/
  | printVersion
  /-- The line `log.Infof("正在获取隧道配置...")`. -/
  | logInfoFetching
  /-- The call `http.Post(api+"/GetUserTunnel", ...)` with the token in the body. -/
  | httpPost (token : String)
  /-- The line `log.Errorf("获取隧道信息失败...")`, with the transport error if any. -/
  | logErrorFetch (err : Option GoError)
  /-- The line `log.Warnf("此隧道不存在: %s", tunnel)`. -/
  | logWarnTunnelMissing (tunnel : String)
  /-- The call `config.LoadClientConfig(cfgFilePath, strictConfigMode, alreadyRead)`. -/
  | loadClientConfig (cfgFilePath : String) (strict alreadyRead : Bool)
  /-- The notice printed for the legacy ini format. -/
  | printLegacyNotice
  /-- The call `validation.ValidateAllClientConfig(cfg, proxyCfgs, visitorCfgs)`. -/
  | validateAllClientConfig (cfg : ClientCommonConfig)
  /-- The line `fmt.Printf("警告: %v\n", warning)`. -/
  | printWarning (warning : GoError)
  /-- The call `log.InitLogger(cfg.Log.To, cfg.Log.Level, int(cfg.Log.MaxDays), ...)`. -/
  | initLogger (logTo logLevel : String) (maxDays : Int) (disablePrintColor : Bool)
  /-- The call `client.NewService(opts)`. -/
  | newService (opts : ServiceOptions)
  /-- The statement `go handleTermSignal(svr)`. -/
  | goHandleTermSignal (svr : Service)
  /-- The call `svr.Run(context.Background())`. -/
  | run (svr : Service)
  /-- The line `fmt.Println(err)` of single-file mode. -/
  | printlnErr (err : GoError)
  /-- The line `fmt.Printf("frpc service error for config file [%s]\n", path)`. -/
  | printClientFailed (path : String)
  /-- The call `signal.Notify(ch, syscall.SIGINT, syscall.SIGTERM)`. -/
  | signalNotify
  /-- The call `svr.GracefulClose(500 * time.Millisecond)`. -/
  | gracefulClose (svr : Service) (timeoutMs : Nat)
  deriving DecidableEq, Repr

/-- The collaborators of `runClient` and `startService`, as result oracles. -/
structure Env where
  /-- Result of `config.LoadClientConfig(path, strict, alreadyRead)`. -/
  loadClientConfig : String → Bool → Bool → Except GoError LoadedConfig
  /-- Result `(warning, err)` of `validation.ValidateAllClientConfig`. -/
  validateAllClientConfig :
    ClientCommonConfig → List ProxyConfigurer → List VisitorConfigurer →
      Option GoError × Option GoError
  /-- Result of `client.NewService`. -/
  newService : ServiceOptions → Except GoError Service
  /-- How `svr.Run(ctx)` ends: the error it returns, or `blocks` when the
  service stays up for ever. -/
  run : Service → CallResult

/-! ## `handleTermSignal`, `startService`, `runClient` -/

/-- Function `handleTermSignal`: subscribe, wait for one signal, then close gracefully
with a 500ms timeout.  `signalDelivered` says whether `<-ch` ever receives. -/
def handleTermSignal (svr : Service) (signalDelivered : Bool) : List Event :=
  Event.signalNotify ::
    (if signalDelivered then [Event.gracefulClose svr 500] else [])

/-- Function `startService`: the events it produces and how it ends.  It ends the
way `svr.Run` does once the service is constructed. -/
def startService (env : Env) (cfg : ClientCommonConfig)
    (proxyCfgs : List ProxyConfigurer) (visitorCfgs : List VisitorConfigurer)
    (cfgFile : String) : List Event × CallResult :=
  let opts : ServiceOptions :=
    { common := cfg, proxyCfgs := proxyCfgs, visitorCfgs := visitorCfgs,
      configFilePath := cfgFile }
  let t0 : List Event :=
    [Event.initLogger cfg.logTo cfg.logLevel cfg.logMaxDays cfg.logDisablePrintColor,
     Event.newService opts]
  match env.newService opts with
  | Except.error err => (t0, CallResult.returned (some err))
  | Except.ok svr =>
    let shouldGracefulClose :=
      cfg.transportProtocol == "kcp" || cfg.transportProtocol == "quic"
    let t1 := if shouldGracefulClose then [Event.goHandleTermSignal svr] else []
    (t0 ++ t1 ++ [Event.run svr], env.run svr)

/-- Function `runClient`: the events it produces and how it ends.
`strictConfigMode` is the package variable of that name. -/
def runClient (env : Env) (strictConfigMode : Bool) (cfgFilePath : String)
    (alreadyRead : Bool) : List Event × CallResult :=
  let t0 : List Event := [Event.loadClientConfig cfgFilePath strictConfigMode alreadyRead]
  match env.loadClientConfig cfgFilePath strictConfigMode alreadyRead with
  | Except.error err => (t0, CallResult.returned (some err))
  | Except.ok r =>
    let t1 := if r.isLegacyFormat then [Event.printLegacyNotice] else []
    let v := env.validateAllClientConfig r.cfg r.proxyCfgs r.visitorCfgs
    let t2 :=
      match v.1 with
      | some warning => [Event.printWarning warning]
      | none => []
    let pre := t0 ++ t1 ++ (Event.validateAllClientConfig r.cfg :: t2)
    match v.2 with
    | some err => (pre, CallResult.returned (some err))
    | none =>
      let s := startService env r.cfg r.proxyCfgs r.visitorCfgs cfgFilePath
      (pre ++ s.1, s.2)

/-- The services for which a trace starts a `handleTermSignal` goroutine. -/
def spawnedHandlers : List Event → List Service
  | [] => []
  | Event.goHandleTermSignal svr :: rest => svr :: spawnedHandlers rest
  | _ :: rest => spawnedHandlers rest

/-- Everything this layer does for a trace: the trace itself and the events of
each `handleTermSignal` goroutine it started. -/
def layerEvents (trace : List Event) (signalDelivered : Bool) : List Event :=
  trace ++ (spawnedHandlers trace).flatMap (fun svr => handleTermSignal svr signalDelivered)

/-! ## Token/tunnel mode: `getUserTunnels` and the loop of `rootCmd.RunE` -/

/-- A decoded JSON value, as `encoding/json` stores it in an `interface{}`.
Numbers are kept as their text. -/
inductive JValue where
  | null
  | bool (b : Bool)
  | num (text : String)
  | str (s : String)
  | arr (items : List JValue)
  | obj (fields : List (String × JValue))

/-- A Go `map[string]interface{}`; `List.lookup` is the index expression
`m[key]`, and a missing key gives the nil interface. -/
abbrev JMap := List (String × JValue)

/-- How a run of the process ends. -/
inductive Outcome where
  /-- Here `RunE` returned this error value to cobra. -/
  | returned (err : Option GoError)
  /-- The process ended through `os.Exit(code)`. -/
  | exited (code : Nat)
  /-- A run-time panic (a failed single-value type assertion). -/
  | panicked
  /-- The main goroutine is blocked for ever: inside a `svr.Run` that does not
  return, or at a `wg.Wait()` whose counter never reaches zero. -/
  | blocked
  deriving DecidableEq, Repr

/-- The result of the `http.Post` call of `getUserTunnels`.  `body` is what
`json.NewDecoder(resp.Body).Decode(&userTunnels)` leaves in `userTunnels`:
`none` is the nil map (the decode error is dropped by the code). -/
inductive PostResult where
  | transportError (err : GoError)
  | response (statusCode : Int) (body : Option JMap)

/-- Function `getUserTunnels`: the events, and either the `tunnel` object or the
way the process ends. -/
def getUserTunnels (post : String → PostResult) (token : String) :
    List Event × Except Outcome JMap :=
  match post token with
  | PostResult.transportError err =>
    ([Event.httpPost token, Event.logErrorFetch (some err)], Except.error (Outcome.exited 1))
  | PostResult.response statusCode body =>
    if statusCode ≠ 200 then
      ([Event.httpPost token, Event.logErrorFetch none], Except.error (Outcome.exited 1))
    else
      let userTunnels : JMap := body.getD []
      match userTunnels.lookup "tunnel" with
      | some (JValue.obj data) => ([Event.httpPost token], Except.ok data)
      | _ => ([Event.httpPost token], Except.error Outcome.panicked)

/-- The loop `for _, tunnel := range tunnels` of `rootCmd.RunE`.  The call
`runClient(content, true)` is made in the loop itself: the loop goes on to the
next tunnel when the call returns, and the error it returns is not used; when
the call never returns the loop never reaches the next tunnel. -/
def launchTunnels (env : Env) (strictConfigMode : Bool) (data : JMap) :
    List String → List Event × Outcome
  | [] => ([], Outcome.returned none)
  | tunnel :: rest =>
    match data.lookup tunnel with
    | some (JValue.obj v) =>
      match v.lookup "data" with
      | some (JValue.str content) =>
        match runClient env strictConfigMode content true with
        | (t, CallResult.returned _) =>
          let r := launchTunnels env strictConfigMode data rest
          (t ++ r.1, r.2)
        | (t, CallResult.blocks) => (t, Outcome.blocked)
      | _ => ([], Outcome.panicked)
    | _ =>
      let r := launchTunnels env strictConfigMode data rest
      (Event.logWarnTunnelMissing tunnel :: r.1, r.2)

/-! ## `filepath.WalkDir` over a finite file tree -/

/-- A file tree as `os.Lstat` and `os.ReadDir` present it: `file` is any entry
that is not a directory; a directory has the entries `ReadDir` returned and the
error it returned with them, if any. -/
inductive FsNode where
  | file (name : String)
  | dir (name : String) (entries : List FsNode) (readErr : Option GoError)

/-- The name of a node. -/
def FsNode.name : FsNode → String
  | FsNode.file n => n
  | FsNode.dir n _ _ => n

/-- A `fs.DirEntry`, as far as `root.go` reads it. -/
structure DirEntry where
  name : String
  isDir : Bool
  deriving DecidableEq, Repr

/-- The arguments `(path, d, err)` of one call of a `fs.WalkDirFunc`: either no
error and an entry, or an error and an entry that may be nil. -/
inductive Visit where
  | entry (path : String) (d : DirEntry)
  | failed (path : String) (d : Option DirEntry) (err : GoError)
  deriving DecidableEq, Repr

/-- What a `fs.WalkDirFunc` returns. -/
inductive WalkRet where
  | ok
  | skipDir
  | skipAll
  | err (e : GoError)
  deriving DecidableEq, Repr

/-- The file system a walk reads. -/
structure FileSystem where
  /-- Result of `os.Lstat` on a root, with what `os.ReadDir` gives below it. -/
  lstat : String → Except GoError FsNode
  /-- Function `filepath.Join` on a directory path and an entry name. -/
  join : String → String → String

mutual
/-- The unexported `walkDir` of `path/filepath`, with the state of the callback
passed explicitly. -/
def walkDir {σ : Type} (fn : σ → Visit → σ × WalkRet) (join : String → String → String)
    (path : String) : FsNode → σ → σ × WalkRet
  | FsNode.file name, s => fn s (Visit.entry path ⟨name, false⟩)
  | FsNode.dir name entries readErr, s =>
    match fn s (Visit.entry path ⟨name, true⟩) with
    | (s1, WalkRet.ok) =>
      match readErr with
      | some e =>
        match fn s1 (Visit.failed path (some ⟨name, true⟩) e) with
        | (s2, WalkRet.ok) => walkEntries fn join path entries s2
        | (s2, WalkRet.skipDir) => (s2, WalkRet.ok)
        | (s2, r) => (s2, r)
      | none => walkEntries fn join path entries s1
    | (s1, WalkRet.skipDir) => (s1, WalkRet.ok)
    | (s1, r) => (s1, r)
/-- The loop `for _, d1 := range dirs` of `walkDir`. -/
def walkEntries {σ : Type} (fn : σ → Visit → σ × WalkRet) (join : String → String → String)
    (path : String) : List FsNode → σ → σ × WalkRet
  | [], s => (s, WalkRet.ok)
  | d1 :: rest, s =>
    match walkDir fn join (join path d1.name) d1 s with
    | (s1, WalkRet.ok) => walkEntries fn join path rest s1
    | (s1, WalkRet.skipDir) => (s1, WalkRet.ok)
    | (s1, r) => (s1, r)
end

/-- Function `filepath.WalkDir` on a file system. -/
def WalkDir {σ : Type} (fn : σ → Visit → σ × WalkRet)
    (fs : FileSystem) (root : String) (s : σ) :
    σ × Option GoError :=
  let r :=
    match fs.lstat root with
    | Except.error e => fn s (Visit.failed root none e)
    | Except.ok node => walkDir fn fs.join root node s
  match r with
  | (s1, WalkRet.err e) => (s1, some e)
  | (s1, _) => (s1, none)

mutual
/-- The calls a walk makes to a callback that always returns nil, below a node. -/
def visitsNode (join : String → String → String) (path : String) : FsNode → List Visit
  | FsNode.file name => [Visit.entry path ⟨name, false⟩]
  | FsNode.dir name entries readErr =>
    Visit.entry path ⟨name, true⟩ ::
      ((match readErr with
        | some e => [Visit.failed path (some ⟨name, true⟩) e]
        | none => []) ++ visitsEntries join path entries)
/-- The calls a walk makes to a callback that always returns nil, over the
entries of a directory. -/
def visitsEntries (join : String → String → String) (path : String) :
    List FsNode → List Visit
  | [] => []
  | d1 :: rest =>
    visitsNode join (join path d1.name) d1 ++ visitsEntries join path rest
end

/-- The calls `filepath.WalkDir` makes to a callback that always returns nil. -/
def visits (fs : FileSystem) (root : String) : List Visit :=
  match fs.lstat root with
  | Except.error e => [Visit.failed root none e]
  | Except.ok node => visitsNode fs.join root node

/-! ## `runMultipleClients`: the walk callback, the goroutines and the wait group -/

/-- The callback passed to `filepath.WalkDir` by `runMultipleClients`, seen
sequentially: its state is the list of paths for which it starts a goroutine.
All three of its `return` statements return nil. -/
def walkFn (launched : List String) : Visit → List String × WalkRet
  | Visit.failed _ _ _ => (launched, WalkRet.ok)
  | Visit.entry path d =>
    if d.isDir then (launched, WalkRet.ok) else (launched ++ [path], WalkRet.ok)

/-- Whether the callback starts a goroutine for a visit: `err == nil` and
`!d.IsDir()`. -/
def Visit.launches : Visit → Bool
  | Visit.failed _ _ _ => false
  | Visit.entry _ d => !d.isDir

/-- The path argument of a visit. -/
def Visit.path : Visit → String
  | Visit.failed p _ _ => p
  | Visit.entry p _ => p

/-- Where a goroutine `go func() { ... }()` stands. -/
inductive Stage where
  /-- Inside `runClient`, with the events it still has to produce. -/
  | running (pending : List Event)
  /-- After the `if err != nil { fmt.Printf(...) }`, before the deferred `wg.Done()`. -/
  | deferred
  /-- After `wg.Done()`. -/
  | finished
  deriving DecidableEq, Repr

/-- One goroutine started by the callback: the `path` it captured, how its
`runClient(path, alreadyRead)` call ends, and its stage. -/
structure Goroutine where
  path : String
  res : CallResult
  stage : Stage
  deriving DecidableEq, Repr

/-- Where the goroutine that called `runMultipleClients` stands. -/
inductive MainPc where
  /-- Inside `filepath.WalkDir`, with the callback calls still to come. -/
  | walking (rest : List Visit)
  /-- Inside the callback between `wg.Add(1)` and the `go` statement. -/
  | spawning (path : String) (rest : List Visit)
  /-- At `wg.Wait()`. -/
  | waiting
  /-- After `return err`. -/
  | returned (err : Option GoError)
  deriving DecidableEq, Repr

/-- The state of a run of `runMultipleClients`. -/
structure Sup where
  main : MainPc
  /-- The counter of the `sync.WaitGroup`. -/
  wg : Int
  /-- The goroutines in the order they were started. -/
  gs : List Goroutine
  /-- Everything printed and every collaborator call so far. -/
  out : List Event
  /-- The value `filepath.WalkDir` returns into `err`. -/
  walkErr : Option GoError
  deriving DecidableEq, Repr

/-- The goroutine the callback starts for `path`. -/
def spawn (env : Env) (strictConfigMode alreadyRead : Bool) (path : String) : Goroutine :=
  let r := runClient env strictConfigMode path alreadyRead
  { path := path, res := r.2, stage := Stage.running r.1 }

/-- One step of a started goroutine: the new goroutine, the events it emits and
the number of `wg.Done()` calls it makes.  A goroutine whose `runClient` call
never returns stays inside it once the events of the call are out. -/
def stepG (g : Goroutine) : Goroutine × List Event × Nat :=
  match g.stage with
  | Stage.running (e :: es) => ({ g with stage := Stage.running es }, [e], 0)
  | Stage.running [] =>
    match g.res with
    | CallResult.returned err =>
      ({ g with stage := Stage.deferred },
        (if err.isSome then [Event.printClientFailed g.path] else []), 0)
    | CallResult.blocks => (g, [], 0)
  | Stage.deferred => ({ g with stage := Stage.finished }, [], 1)
  | Stage.finished => (g, [], 0)

/-- One step of the goroutine at index `i`; nothing happens if there is none. -/
def stepAt : Nat → List Goroutine → List Goroutine × List Event × Nat
  | _, [] => ([], [], 0)
  | 0, g :: gs => ((stepG g).1 :: gs, (stepG g).2.1, (stepG g).2.2)
  | i + 1, g :: gs => (g :: (stepAt i gs).1, (stepAt i gs).2.1, (stepAt i gs).2.2)

/-- One step of the main goroutine.  At `wg.Wait()` it moves only when the
counter is zero. -/
def stepMain (env : Env) (strictConfigMode alreadyRead : Bool) (s : Sup) : Sup :=
  match s.main with
  | MainPc.walking [] => { s with main := MainPc.waiting }
  | MainPc.walking (Visit.failed _ _ _ :: rest) => { s with main := MainPc.walking rest }
  | MainPc.walking (Visit.entry path d :: rest) =>
    if d.isDir then { s with main := MainPc.walking rest }
    else { s with main := MainPc.spawning path rest, wg := s.wg + 1 }
  | MainPc.spawning path rest =>
    { s with main := MainPc.walking rest,
             gs := s.gs ++ [spawn env strictConfigMode alreadyRead path] }
  | MainPc.waiting => if s.wg = 0 then { s with main := MainPc.returned s.walkErr } else s
  | MainPc.returned _ => s

/-- One step of the thread `tid`: `0` is the main goroutine, `i + 1` the
goroutine started `i`-th. -/
def step (env : Env) (strictConfigMode alreadyRead : Bool) (s : Sup) : Nat → Sup
  | 0 => stepMain env strictConfigMode alreadyRead s
  | i + 1 =>
    { s with gs := (stepAt i s.gs).1,
             out := s.out ++ (stepAt i s.gs).2.1,
             wg := s.wg - ((stepAt i s.gs).2.2 : Int) }

/-- The state after the threads moved in the order of a schedule. -/
def exec (env : Env) (strictConfigMode alreadyRead : Bool) (s : Sup) (sched : List Nat) : Sup :=
  sched.foldl (step env strictConfigMode alreadyRead) s

/-- The state in which `runMultipleClients(cfgDir, alreadyRead)` is entered. -/
def initSup (fs : FileSystem) (cfgDir : String) : Sup :=
  { main := MainPc.walking (visits fs cfgDir), wg := 0, gs := [], out := [],
    walkErr := (WalkDir walkFn fs cfgDir []).2 }

/-- Whether a goroutine can make a step: it has not finished and is not inside
a `runClient` call that never returns with all the events of the call out. -/
def canStep (g : Goroutine) : Bool :=
  match g.stage with
  | Stage.running (_ :: _) => true
  | Stage.running [] => g.res.returns
  | Stage.deferred => true
  | Stage.finished => false

/-- The index of the first goroutine that can make a step. -/
def firstEnabled : List Goroutine → Option Nat
  | [] => none
  | g :: gs => if canStep g then some 0 else (firstEnabled gs).map (fun i => i + 1)

/-- The thread a fair scheduler runs next: the main goroutine while it walks,
then the started goroutines that can move, then the main goroutine at
`wg.Wait()`. -/
def nextTid (s : Sup) : Nat :=
  match s.main with
  | MainPc.walking _ => 0
  | MainPc.spawning _ _ => 0
  | _ =>
    match firstEnabled s.gs with
    | some i => i + 1
    | none => 0

/-- Steps a goroutine still has to make. -/
def gSteps (g : Goroutine) : Nat :=
  match g.stage with
  | Stage.running pending => pending.length + (if g.res.returns then 2 else 0)
  | Stage.deferred => 1
  | Stage.finished => 0

/-- Steps a newly started goroutine for `path` makes. -/
def spawnCost (env : Env) (strictConfigMode alreadyRead : Bool) (path : String) : Nat :=
  (runClient env strictConfigMode path alreadyRead).1.length +
    (if (runClient env strictConfigMode path alreadyRead).2.returns then 2 else 0)

/-- Steps the walk and the goroutines it will start still have to make. -/
def walkCost (env : Env) (strictConfigMode alreadyRead : Bool) : List Visit → Nat
  | [] => 0
  | v :: rest =>
    (if v.launches then 2 + spawnCost env strictConfigMode alreadyRead v.path else 1) +
      walkCost env strictConfigMode alreadyRead rest

/-- Steps left until `runMultipleClients` has returned. -/
def stepsLeft (env : Env) (strictConfigMode alreadyRead : Bool) (s : Sup) : Nat :=
  (match s.main with
   | MainPc.walking rest => walkCost env strictConfigMode alreadyRead rest + 2
   | MainPc.spawning path rest =>
     1 + spawnCost env strictConfigMode alreadyRead path +
       walkCost env strictConfigMode alreadyRead rest + 2
   | MainPc.waiting => 1
   | MainPc.returned _ => 0) + (s.gs.map gSteps).sum

/-- Run the fair scheduler for `n` steps. -/
def drain (env : Env) (strictConfigMode alreadyRead : Bool) : Nat → Sup → Sup
  | 0, s => s
  | n + 1, s =>
    drain env strictConfigMode alreadyRead n
      (step env strictConfigMode alreadyRead s (nextTid s))

/-- Function `runMultipleClients(cfgDir, alreadyRead)`: the threads first move as the
schedule says, then the fair scheduler runs every thread as far as it can go:
to the return of `runMultipleClients`, or to the state in which the main
goroutine waits at `wg.Wait()` for goroutines that never come back from
`runClient`.  The `time.Sleep(time.Millisecond)` of the callback changes no
state. -/
def runMultipleClients (env : Env) (strictConfigMode : Bool)
    (fs : FileSystem) (sched : List Nat)
    (cfgDir : String) (alreadyRead : Bool) : Sup :=
  let s := exec env strictConfigMode alreadyRead (initSup fs cfgDir) sched
  drain env strictConfigMode alreadyRead (stepsLeft env strictConfigMode alreadyRead s) s

/-- The value `runMultipleClients` returned, if it has returned. -/
def Sup.returnValue (s : Sup) : Option (Option GoError) :=
  match s.main with
  | MainPc.returned err => some err
  | _ => none

/-! ## `rootCmd.RunE` -/

/-- The package variables bound to the command-line flags. -/
structure Flags where
  cfgFile : String
  cfgDir : String
  showVersion : Bool
  strictConfigMode : Bool
  token : String
  tunnels : List String
  deriving DecidableEq, Repr

/-- Everything outside the process that a run depends on. -/
structure World where
  env : Env
  /-- The result of the `http.Post` call for a token. -/
  post : String → PostResult
  /-- The file system read by directory mode. -/
  fs : FileSystem
  /-- The order in which the goroutines of directory mode move. -/
  sched : List Nat

/-- Function `rootCmd.RunE`: the events of a run and how it ends. -/
def rootRunE (f : Flags) (w : World) : List Event × Outcome :=
  if f.showVersion then ([Event.printVersion], Outcome.returned none)
  else if f.token ≠ "" ∧ f.tunnels.length ≠ 0 then
    match getUserTunnels w.post f.token with
    | (t, Except.error o) => (Event.logInfoFetching :: t, o)
    | (t, Except.ok data) =>
      let r := launchTunnels w.env f.strictConfigMode data f.tunnels
      (Event.logInfoFetching :: (t ++ r.1), r.2)
  else if f.cfgDir ≠ "" then
    let s := runMultipleClients w.env f.strictConfigMode w.fs w.sched f.cfgDir false
    match s.returnValue with
    | some _ => (s.out, Outcome.returned none)
    | none => (s.out, Outcome.blocked)
  else
    match runClient w.env f.strictConfigMode f.cfgFile false with
    | (t, CallResult.returned (some err)) => (t ++ [Event.printlnErr err], Outcome.exited 1)
    | (t, CallResult.returned none) => (t, Outcome.returned none)
    | (t, CallResult.blocks) => (t, Outcome.blocked)

/-- The `loadClientConfig` calls of a trace: `(cfgFilePath, alreadyRead)` of
each `runClient` call, in order. -/
def launchCalls : List Event → List (String × Bool)
  | [] => []
  | Event.loadClientConfig p _ a :: rest => (p, a) :: launchCalls rest
  | _ :: rest => launchCalls rest

/-- The tunnels a trace warns about as missing, in order. -/
def missingWarnings : List Event → List String
  | [] => []
  | Event.logWarnTunnelMissing t :: rest => t :: missingWarnings rest
  | _ :: rest => missingWarnings rest

/-- The paths named by the `frpc service error for config file` lines of a
trace, in order. -/
def failureMessages : List Event → List String
  | [] => []
  | Event.printClientFailed p :: rest => p :: failureMessages rest
  | _ :: rest => failureMessages rest

/-! ## Readings of the claims, and sample inputs -/

/-- The `data` text of the entry of the fetched mapping for a tunnel: the entry
is an object and its `data` field is a string. -/
def entryData (data : JMap) (tunnel : String) : Option String :=
  match data.lookup tunnel with
  | some (JValue.obj v) =>
    match v.lookup "data" with
    | some (JValue.str content) => some content
    | _ => none
  | _ => none

/-- What the loop of token/tunnel mode produces for one requested tunnel when
every present entry is well formed. -/
def tunnelEvents (env : Env) (strict : Bool) (data : JMap) (tunnel : String) : List Event :=
  match entryData data tunnel with
  | some content => (runClient env strict content true).1
  | none => [Event.logWarnTunnelMissing tunnel]

/-- The fetch failed: a transport error, or a status code other than 200. -/
def fetchFailed : PostResult → Prop
  | PostResult.transportError _ => True
  | PostResult.response statusCode _ => statusCode ≠ 200

/-- The transport error of a fetch result, if it is one. -/
def fetchError : PostResult → Option GoError
  | PostResult.transportError e => some e
  | PostResult.response _ _ => none

/-- Events of `startService`: logging set up, a service constructed, a signal
handler started, `Run` called. -/
def Event.isService : Event → Bool
  | Event.initLogger _ _ _ _ => true
  | Event.newService _ => true
  | Event.goHandleTermSignal _ => true
  | Event.run _ => true
  | _ => false

/-- The `http.Post` call of token/tunnel mode. -/
def Event.isFetch : Event → Bool
  | Event.httpPost _ => true
  | _ => false

/-- Everything one launched source of directory mode produces: the events of
`runClient(path, alreadyRead)`, then the failure line if it returned an error. -/
def sourceEvents (env : Env) (strictConfigMode alreadyRead : Bool) (path : String) :
    List Event :=
  (runClient env strictConfigMode path alreadyRead).1 ++
    (if (runClient env strictConfigMode path alreadyRead).2.failed
      then [Event.printClientFailed path] else [])

/-- The paths for which the walk starts a goroutine, in walk order. -/
def launchedPaths (vs : List Visit) : List String :=
  (vs.filter Visit.launches).map Visit.path

/-- A configuration whose transport protocol is `proto`. -/
def sampleCfg (proto : String) : ClientCommonConfig :=
  { logTo := "console", logLevel := "info", logMaxDays := 3,
    logDisablePrintColor := false, transportProtocol := proto }

/-- Sample collaborators.  The sources `bad` and `d/bad` cannot be loaded; every
other source loads a configuration whose protocol is the source text.  A
configuration with protocol `inv` or `d/inv` fails validation, with a warning;
one with protocol `warn` gets a warning only.  Every service can be
constructed.  The service of a configuration with protocol `live` or `d/live`
stays up, so its `Run` never returns; the `Run` of every other service
returns nil. -/
def sampleEnv : Env :=
  { loadClientConfig := fun p _ _ =>
      if p = "bad" ∨ p = "d/bad" then Except.error ⟨"cannot load"⟩
      else Except.ok
        { cfg := sampleCfg p, proxyCfgs := [], visitorCfgs := [], isLegacyFormat := false }
    validateAllClientConfig := fun c _ _ =>
      if c.transportProtocol = "inv" ∨ c.transportProtocol = "d/inv" then
        (some ⟨"deprecated field"⟩, some ⟨"invalid"⟩)
      else if c.transportProtocol = "warn" then (some ⟨"deprecated field"⟩, none)
      else (none, none)
    newService := fun opts =>
      if opts.common.transportProtocol = "live" ∨ opts.common.transportProtocol = "d/live"
      then Except.ok ⟨1⟩ else Except.ok ⟨7⟩
    run := fun svr => if svr.id = 1 then CallResult.blocks else CallResult.returned none }

/-- A fetch that answers 200 with `{"tunnel": {"a": {"data": "cfg-a"}}}`. -/
def samplePost : String → PostResult := fun _ =>
  PostResult.response 200
    (some [("tunnel", JValue.obj [("a", JValue.obj [("data", JValue.str "cfg-a")])])])

/-- A fetch that answers 200 with `{"tunnel": {"a": {"data": "bad"}, "b": {"data": "tcp"}}}`. -/
def samplePostBad : String → PostResult := fun _ =>
  PostResult.response 200
    (some [("tunnel", JValue.obj
      [("a", JValue.obj [("data", JValue.str "bad")]),
       ("b", JValue.obj [("data", JValue.str "tcp")])])])

/-- Joining a directory path and a name with a separator, as `filepath.Join`
does on the clean paths of the samples. -/
def sampleJoin (dir name : String) : String := dir ++ "/" ++ name

/-- A directory `d` with the files `a`, `c` and `inv`. -/
def sampleTree : FileSystem :=
  { lstat := fun _ =>
      Except.ok (FsNode.dir "d" [FsNode.file "a", FsNode.file "c", FsNode.file "inv"] none)
    join := sampleJoin }

/-- A directory `d` whose listing fails after the entries `a` and `sub` (a
directory holding the file `x`). -/
def sampleTreeErr : FileSystem :=
  { lstat := fun _ =>
      Except.ok (FsNode.dir "d"
        [FsNode.file "a", FsNode.dir "sub" [FsNode.file "x"] none] (some ⟨"readdir"⟩))
    join := sampleJoin }

/-- A directory `d` with the single file `bad`. -/
def sampleTreeBad : FileSystem :=
  { lstat := fun _ => Except.ok (FsNode.dir "d" [FsNode.file "bad"] none)
    join := sampleJoin }

/-- A directory `d` with the files `bad` and `live`. -/
def sampleTreeLive : FileSystem :=
  { lstat := fun _ =>
      Except.ok (FsNode.dir "d" [FsNode.file "bad", FsNode.file "live"] none)
    join := sampleJoin }

/-- A fetch that answers 200 with `{"tunnel": {"a": {"data": "live"}}}`. -/
def samplePostLive : String → PostResult := fun _ =>
  PostResult.response 200
    (some [("tunnel", JValue.obj [("a", JValue.obj [("data", JValue.str "live")])])])

/-- A fetch that answers 200 with
`{"tunnel": {"a": {"data": "live"}, "b": {"data": "tcp"}}}`. -/
def samplePostLiveBoth : String → PostResult := fun _ =>
  PostResult.response 200
    (some [("tunnel", JValue.obj
      [("a", JValue.obj [("data", JValue.str "live")]),
       ("b", JValue.obj [("data", JValue.str "tcp")])])])

/-- Flags of a token/tunnel run for the tunnels `a` and `b`. -/
def sampleTokenFlags : Flags :=
  { cfgFile := "./frpc.ini", cfgDir := "", showVersion := false, strictConfigMode := true,
    token := "T", tunnels := ["a", "b"] }

/-- Flags of a directory run on `d`. -/
def sampleDirFlags : Flags :=
  { cfgFile := "./frpc.ini", cfgDir := "d", showVersion := false, strictConfigMode := true,
    token := "", tunnels := [] }

/-- Flags of a single-file run on `bad`. -/
def sampleFileFlags : Flags :=
  { cfgFile := "bad", cfgDir := "", showVersion := false, strictConfigMode := true,
    token := "", tunnels := [] }

/-- A world answering the sample fetch, with the sample tree. -/
def sampleWorld : World :=
  { env := sampleEnv, post := samplePost, fs := sampleTree, sched := [0, 0, 0, 1, 2, 1] }

/-- A world whose fetch fails with status 500. -/
def sampleWorldDown : World :=
  { env := sampleEnv, post := fun _ => PostResult.response 500 none, fs := sampleTree,
    sched := [] }

/-- A world whose fetched tunnel `a` carries text that cannot be loaded. -/
def sampleWorldBad : World :=
  { env := sampleEnv, post := samplePostBad, fs := sampleTreeBad, sched := [] }

/-- A world whose fetched mapping holds tunnel `a` only, and the service of `a`
stays up. -/
def sampleWorldLive : World :=
  { env := sampleEnv, post := samplePostLive, fs := sampleTreeLive, sched := [] }

/-- A world whose fetched mapping holds the tunnels `a` and `b`, and the service
of `a` stays up. -/
def sampleWorldLiveBoth : World :=
  { env := sampleEnv, post := samplePostLiveBoth, fs := sampleTreeLive, sched := [] }

/-! ## Quantities of the supervisor machine -/

/-- One for a goroutine that has not yet called `wg.Done()`, zero otherwise. -/
def unf (g : Goroutine) : Nat :=
  match g.stage with
  | Stage.finished => 0
  | _ => 1

/-- The events a goroutine still has to emit. -/
def remaining (g : Goroutine) : List Event :=
  match g.stage with
  | Stage.running pending =>
    pending ++ (if g.res.failed then [Event.printClientFailed g.path] else [])
  | _ => []

/-- The paths for which the main goroutine will still start a goroutine. -/
def pendingLaunch : MainPc → List String
  | MainPc.walking rest => launchedPaths rest
  | MainPc.spawning path rest => path :: launchedPaths rest
  | _ => []

/-- One while the main goroutine is between `wg.Add(1)` and the `go` statement. -/
def addedNotStarted : MainPc → Nat
  | MainPc.spawning _ _ => 1
  | _ => 0

/-- A goroutine is consistent with the call it makes: its result is that of
`runClient(path, alreadyRead)`, and it is past the call only if the call
returns. -/
def Goroutine.consistent (env : Env) (strict alreadyRead : Bool) (g : Goroutine) : Prop :=
  g.res = (runClient env strict g.path alreadyRead).2 ∧
    (g.stage = Stage.deferred ∨ g.stage = Stage.finished → g.res.returns = true)

/-- Every launched source's `runClient(path, alreadyRead)` call returns. -/
def allReturn (env : Env) (strict alreadyRead : Bool) (paths : List String) : Prop :=
  ∀ p ∈ paths, (runClient env strict p alreadyRead).2.returns = true

/-- The invariant of a run of `runMultipleClients` over the visits `all`, with
`werr` the value the walk returns. -/
structure Inv (env : Env) (strict alreadyRead : Bool) (all : List Visit)
    (werr : Option GoError) (s : Sup) : Prop where
  /-- The counter is the number of goroutines added and not yet done. -/
  wg_eq : s.wg = (((s.gs.map unf).sum + addedNotStarted s.main : Nat) : Int)
  /-- After the return every goroutine has finished. -/
  ret : ∀ e, s.main = MainPc.returned e → (s.gs.map unf).sum = 0 ∧ e = werr
  /-- The walk result is fixed. -/
  walk : s.walkErr = werr
  /-- What was emitted and what is still to be emitted make up, source by
  source, the events of the started goroutines. -/
  events : (s.out ++ s.gs.flatMap remaining).Perm
    (s.gs.flatMap (fun g => sourceEvents env strict alreadyRead g.path))
  /-- Started and still to be started goroutines are the launching visits. -/
  paths : s.gs.map Goroutine.path ++ pendingLaunch s.main = launchedPaths all
  /-- Every started goroutine is consistent with its `runClient` call. -/
  good : ∀ g ∈ s.gs, g.consistent env strict alreadyRead

/-- The main goroutine waits at `wg.Wait()`, no goroutine can move and the
counter is not zero: `runMultipleClients` never returns. -/
def parked (s : Sup) : Prop :=
  s.main = MainPc.waiting ∧ firstEnabled s.gs = none ∧ s.wg ≠ 0

/-! ## Lemmas on traces -/

theorem launchCalls_append (a b : List Event) :
    launchCalls (a ++ b) = launchCalls a ++ launchCalls b := by
  induction a with
  | nil => rfl
  | cons e a ih => cases e <;> simp [launchCalls, ih]

theorem missingWarnings_append (a b : List Event) :
    missingWarnings (a ++ b) = missingWarnings a ++ missingWarnings b := by
  induction a with
  | nil => rfl
  | cons e a ih => cases e <;> simp [missingWarnings, ih]

theorem failureMessages_append (a b : List Event) :
    failureMessages (a ++ b) = failureMessages a ++ failureMessages b := by
  induction a with
  | nil => rfl
  | cons e a ih => cases e <;> simp [failureMessages, ih]

theorem spawnedHandlers_append (a b : List Event) :
    spawnedHandlers (a ++ b) = spawnedHandlers a ++ spawnedHandlers b := by
  induction a with
  | nil => rfl
  | cons e a ih => cases e <;> simp [spawnedHandlers, ih]

/-- The trace of `startService` holds service events only. -/
theorem startService_events (env : Env) (cfg : ClientCommonConfig)
    (ps : List ProxyConfigurer) (vs : List VisitorConfigurer) (file : String) :
    ∀ e ∈ (startService env cfg ps vs file).1, e.isService = true := by
  intro e he
  unfold startService at he
  cases hs : env.newService
      { common := cfg, proxyCfgs := ps, visitorCfgs := vs, configFilePath := file } with
  | error err =>
    simp only [hs] at he
    simp at he
    rcases he with rfl | rfl <;> rfl
  | ok svr =>
    simp only [hs] at he
    by_cases hp : (cfg.transportProtocol == "kcp" || cfg.transportProtocol == "quic") = true
    · simp [hp] at he
      rcases he with rfl | rfl | rfl | rfl <;> rfl
    · simp [hp] at he
      rcases he with rfl | rfl | rfl <;> rfl

theorem launchCalls_of_service (t : List Event) (h : ∀ e ∈ t, e.isService = true) :
    launchCalls t = [] := by
  induction t with
  | nil => rfl
  | cons e t ih =>
    have he := h e (List.mem_cons_self _ _)
    have ht := ih (fun x hx => h x (List.mem_cons_of_mem _ hx))
    cases e <;> simp_all [launchCalls, Event.isService]

theorem missingWarnings_of_service (t : List Event) (h : ∀ e ∈ t, e.isService = true) :
    missingWarnings t = [] := by
  induction t with
  | nil => rfl
  | cons e t ih =>
    have he := h e (List.mem_cons_self _ _)
    have ht := ih (fun x hx => h x (List.mem_cons_of_mem _ hx))
    cases e <;> simp_all [missingWarnings, Event.isService]

theorem failureMessages_of_service (t : List Event) (h : ∀ e ∈ t, e.isService = true) :
    failureMessages t = [] := by
  induction t with
  | nil => rfl
  | cons e t ih =>
    have he := h e (List.mem_cons_self _ _)
    have ht := ih (fun x hx => h x (List.mem_cons_of_mem _ hx))
    cases e <;> simp_all [failureMessages, Event.isService]

/-- The shape of every `runClient` trace: the load call, then events that are
no load call, no warning about a missing tunnel, no failure line and no fetch. -/
theorem runClient_shape (env : Env) (strict : Bool) (path : String) (ar : Bool) :
    ∃ rest, (runClient env strict path ar).1 = Event.loadClientConfig path strict ar :: rest ∧
      launchCalls rest = [] ∧ missingWarnings rest = [] ∧ failureMessages rest = [] ∧
      ∀ e ∈ rest, e.isFetch = false := by
  unfold runClient
  cases hl : env.loadClientConfig path strict ar with
  | error err => exact ⟨[], by simp [launchCalls, missingWarnings, failureMessages]⟩
  | ok r =>
    have hsvc := startService_events env r.cfg r.proxyCfgs r.visitorCfgs path
    have h1 := launchCalls_of_service _ hsvc
    have h2 := missingWarnings_of_service _ hsvc
    have h3 := failureMessages_of_service _ hsvc
    have h4 : ∀ e ∈ (startService env r.cfg r.proxyCfgs r.visitorCfgs path).1,
        e.isFetch = false := by
      intro e he
      have := hsvc e he
      cases e <;> simp_all [Event.isService, Event.isFetch]
    simp only []
    cases hw : (env.validateAllClientConfig r.cfg r.proxyCfgs r.visitorCfgs).1 <;>
      cases hv : (env.validateAllClientConfig r.cfg r.proxyCfgs r.visitorCfgs).2 <;>
      cases hleg : r.isLegacyFormat <;>
      refine ⟨_, by simp; rfl, ?_, ?_, ?_, ?_⟩ <;>
      simp [launchCalls_append, missingWarnings_append, failureMessages_append,
        launchCalls, missingWarnings, failureMessages, h1, h2, h3, Event.isFetch] <;>
      exact h4

theorem launchCalls_runClient (env : Env) (strict : Bool) (path : String) (ar : Bool) :
    launchCalls (runClient env strict path ar).1 = [(path, ar)] := by
  obtain ⟨rest, h, h1, -, -, -⟩ := runClient_shape env strict path ar
  rw [h]; simp [launchCalls, h1]

theorem missingWarnings_runClient (env : Env) (strict : Bool) (path : String) (ar : Bool) :
    missingWarnings (runClient env strict path ar).1 = [] := by
  obtain ⟨rest, h, -, h2, -, -⟩ := runClient_shape env strict path ar
  rw [h]; simp [missingWarnings, h2]

theorem failureMessages_runClient (env : Env) (strict : Bool) (path : String) (ar : Bool) :
    failureMessages (runClient env strict path ar).1 = [] := by
  obtain ⟨rest, h, -, -, h3, -⟩ := runClient_shape env strict path ar
  rw [h]; simp [failureMessages, h3]

theorem runClient_no_fetch (env : Env) (strict : Bool) (path : String) (ar : Bool) :
    ∀ e ∈ (runClient env strict path ar).1, e.isFetch = false := by
  obtain ⟨rest, h, -, -, -, h4⟩ := runClient_shape env strict path ar
  rw [h]
  intro e he
  rcases List.mem_cons.1 he with rfl | he
  · rfl
  · exact h4 e he

/-! ## The three branches of `rootCmd.RunE` -/

theorem rootRunE_token_mode (f : Flags) (w : World) (hv : f.showVersion = false)
    (hm : f.token ≠ "" ∧ f.tunnels.length ≠ 0) :
    rootRunE f w =
      match getUserTunnels w.post f.token with
      | (t, Except.error o) => (Event.logInfoFetching :: t, o)
      | (t, Except.ok data) =>
        (Event.logInfoFetching :: (t ++ (launchTunnels w.env f.strictConfigMode data f.tunnels).1),
          (launchTunnels w.env f.strictConfigMode data f.tunnels).2) := by
  unfold rootRunE
  rw [if_neg (by simp [hv]), if_pos hm]

theorem rootRunE_dir_mode (f : Flags) (w : World) (hv : f.showVersion = false)
    (hm : ¬ (f.token ≠ "" ∧ f.tunnels.length ≠ 0)) (hd : f.cfgDir ≠ "") :
    rootRunE f w =
      match (runMultipleClients w.env f.strictConfigMode w.fs w.sched f.cfgDir
          false).returnValue with
      | some _ =>
        ((runMultipleClients w.env f.strictConfigMode w.fs w.sched f.cfgDir false).out,
          Outcome.returned none)
      | none =>
        ((runMultipleClients w.env f.strictConfigMode w.fs w.sched f.cfgDir false).out,
          Outcome.blocked) := by
  unfold rootRunE
  rw [if_neg (by simp [hv]), if_neg hm, if_pos hd]

theorem rootRunE_file_mode (f : Flags) (w : World) (hv : f.showVersion = false)
    (hm : ¬ (f.token ≠ "" ∧ f.tunnels.length ≠ 0)) (hd : f.cfgDir = "") :
    rootRunE f w =
      match runClient w.env f.strictConfigMode f.cfgFile false with
      | (t, CallResult.returned (some err)) =>
        (t ++ [Event.printlnErr err], Outcome.exited 1)
      | (t, CallResult.returned none) => (t, Outcome.returned none)
      | (t, CallResult.blocks) => (t, Outcome.blocked) := by
  unfold rootRunE
  rw [if_neg (by simp [hv]), if_neg hm, if_neg (by simp [hd])]

/-! ## Lemmas on the loop of token/tunnel mode -/

theorem entryData_of_wellFormed (data : JMap)
    (hwf : ∀ t v, data.lookup t = some v →
      ∃ fields content, v = JValue.obj fields ∧
        fields.lookup "data" = some (JValue.str content))
    (t : String) :
    (data.lookup t = none ∧ entryData data t = none) ∨
    (∃ fields content, data.lookup t = some (JValue.obj fields) ∧
      fields.lookup "data" = some (JValue.str content) ∧ entryData data t = some content) := by
  cases h : data.lookup t with
  | none => left; simp [entryData, h]
  | some v =>
    obtain ⟨fields, content, rfl, hc⟩ := hwf t v h
    right
    exact ⟨fields, content, rfl, hc, by simp [entryData, h, hc]⟩

/-- When every present entry is well formed and every `runClient` call the loop
makes returns, the loop handles every requested tunnel and `RunE` goes on to
its `return nil`. -/
theorem launchTunnels_of_wellFormed (env : Env) (strict : Bool) (data : JMap)
    (hwf : ∀ t v, data.lookup t = some v →
      ∃ fields content, v = JValue.obj fields ∧
        fields.lookup "data" = some (JValue.str content))
    (tunnels : List String)
    (hret : ∀ t ∈ tunnels, ∀ c, entryData data t = some c →
      (runClient env strict c true).2.returns = true) :
    launchTunnels env strict data tunnels =
      (tunnels.flatMap (tunnelEvents env strict data), Outcome.returned none) := by
  induction tunnels with
  | nil => rfl
  | cons t rest ih =>
    have ih2 := ih (fun u hu c hc => hret u (List.mem_cons_of_mem _ hu) c hc)
    rcases entryData_of_wellFormed data hwf t with ⟨h1, h2⟩ | ⟨fields, content, h1, h2, h3⟩
    · simp [launchTunnels, h1, ih2, tunnelEvents, h2]
    · have hr := hret t (List.mem_cons_self _ _) content h3
      rcases hrc : runClient env strict content true with ⟨tr, err | _⟩
      · simp [launchTunnels, h1, h2, hrc, ih2, tunnelEvents, h3]
      · rw [hrc] at hr
        cases hr

/-- A `runClient` call of the loop that never returns ends the loop: nothing is
done for the tunnels after it, neither a launch nor a warning. -/
theorem launchTunnels_blocks (env : Env) (strict : Bool) (data : JMap)
    (t : String) (rest : List String) (fields : JMap) (content : String)
    (h1 : data.lookup t = some (JValue.obj fields))
    (h2 : fields.lookup "data" = some (JValue.str content))
    (hb : (runClient env strict content true).2 = CallResult.blocks) :
    launchTunnels env strict data (t :: rest) =
      ((runClient env strict content true).1, Outcome.blocked) := by
  rcases hrc : runClient env strict content true with ⟨tr, err | _⟩
  · rw [hrc] at hb
    cases hb
  · simp [launchTunnels, h1, h2, hrc]

theorem launchCalls_tunnelEvents (env : Env) (strict : Bool) (data : JMap)
    (tunnels : List String) :
    launchCalls (tunnels.flatMap (tunnelEvents env strict data)) =
      tunnels.filterMap (fun t => (entryData data t).map (fun c => (c, true))) := by
  induction tunnels with
  | nil => rfl
  | cons t rest ih =>
    cases h : entryData data t with
    | none => simp [tunnelEvents, h, launchCalls_append, launchCalls, ih]
    | some c =>
      simp [tunnelEvents, h, launchCalls_append, launchCalls_runClient, ih]

theorem missingWarnings_tunnelEvents (env : Env) (strict : Bool) (data : JMap)
    (tunnels : List String) :
    missingWarnings (tunnels.flatMap (tunnelEvents env strict data)) =
      tunnels.filter (fun t => (entryData data t).isNone) := by
  induction tunnels with
  | nil => rfl
  | cons t rest ih =>
    cases h : entryData data t with
    | none => simp [tunnelEvents, h, missingWarnings_append, missingWarnings, ih]
    | some c =>
      simp [tunnelEvents, h, missingWarnings_append, missingWarnings_runClient, ih]

/-- Token/tunnel mode when every `runClient` call the loop makes returns: if the
fetch answers 200 with a `tunnel` object in which every present entry is an
object with a string `data` field, the run returns normally and, entry by
entry of the requested list and in its order, produces either the `runClient`
call on the entry's `data` text with `alreadyRead = true` (name present) or one
warning naming the tunnel and no call (name absent). -/
theorem token_mode_when_calls_return (f : Flags) (w : World) (body data : JMap)
    (hv : f.showVersion = false) (ht : f.token ≠ "") (hn : f.tunnels ≠ [])
    (hpost : w.post f.token = PostResult.response 200 (some body))
    (hbody : body.lookup "tunnel" = some (JValue.obj data))
    (hwf : ∀ t v, data.lookup t = some v →
      ∃ fields content, v = JValue.obj fields ∧
        fields.lookup "data" = some (JValue.str content))
    (hret : ∀ t ∈ f.tunnels, ∀ c, entryData data t = some c →
      (runClient w.env f.strictConfigMode c true).2.returns = true) :
    (rootRunE f w).2 = Outcome.returned none ∧
    launchCalls (rootRunE f w).1 =
      f.tunnels.filterMap (fun t => (entryData data t).map (fun c => (c, true))) ∧
    missingWarnings (rootRunE f w).1 = f.tunnels.filter (fun t => (data.lookup t).isNone) ∧
    (rootRunE f w).1 =
      Event.logInfoFetching :: Event.httpPost f.token ::
        f.tunnels.flatMap (fun t =>
          match entryData data t with
          | some content => (runClient w.env f.strictConfigMode content true).1
          | none => [Event.logWarnTunnelMissing t]) := by
  have hm : f.token ≠ "" ∧ f.tunnels.length ≠ 0 := ⟨ht, by simpa using hn⟩
  have hget : getUserTunnels w.post f.token = ([Event.httpPost f.token], Except.ok data) := by
    simp [getUserTunnels, hpost, hbody]
  have hrun : rootRunE f w =
      (Event.logInfoFetching :: Event.httpPost f.token ::
        f.tunnels.flatMap (tunnelEvents w.env f.strictConfigMode data),
       Outcome.returned none) := by
    rw [rootRunE_token_mode f w hv hm, hget]
    simp only [launchTunnels_of_wellFormed w.env _ data hwf f.tunnels hret]
    rfl
  have hnone : (fun t => (data.lookup t).isNone) = (fun t => (entryData data t).isNone) := by
    funext t
    rcases entryData_of_wellFormed data hwf t with ⟨h1, h2⟩ | ⟨fields, content, h1, -, h3⟩
    · simp [h1, h2]
    · simp [h1, h3]
  refine ⟨by rw [hrun], ?_, ?_, ?_⟩
  · rw [hrun]
    simp [launchCalls, launchCalls_tunnelEvents]
  · rw [hrun, hnone]
    simp [missingWarnings, missingWarnings_tunnelEvents]
  · rw [hrun]
    rfl

/-! ## Lemmas on the goroutines -/

theorem stepG_path (g : Goroutine) : (stepG g).1.path = g.path := by
  rcases g with ⟨p, r, st⟩
  rcases st with (_ | ⟨e, es⟩) | _ | _ <;> cases r <;> rfl

theorem stepG_res (g : Goroutine) : (stepG g).1.res = g.res := by
  rcases g with ⟨p, r, st⟩
  rcases st with (_ | ⟨e, es⟩) | _ | _ <;> cases r <;> rfl

theorem stepG_remaining (g : Goroutine) :
    (stepG g).2.1 ++ remaining (stepG g).1 = remaining g := by
  rcases g with ⟨p, r, st⟩
  rcases st with (_ | ⟨e, es⟩) | _ | _ <;> rcases r with (_ | err) | _ <;>
    simp [stepG, remaining, CallResult.failed]

theorem stepG_unf (g : Goroutine) : unf (stepG g).1 + (stepG g).2.2 = unf g := by
  rcases g with ⟨p, r, st⟩
  rcases st with (_ | ⟨e, es⟩) | _ | _ <;> cases r <;> simp [stepG, unf]

theorem stepG_gSteps (g : Goroutine) :
    gSteps (stepG g).1 + (if canStep g then 1 else 0) = gSteps g := by
  rcases g with ⟨p, r, st⟩
  rcases st with (_ | ⟨e, es⟩) | _ | _ <;> cases r <;>
    simp [stepG, canStep, gSteps, CallResult.returns]

theorem stepG_consistent (env : Env) (strict ar : Bool) (g : Goroutine)
    (h : g.consistent env strict ar) : (stepG g).1.consistent env strict ar := by
  refine ⟨by rw [stepG_res, stepG_path]; exact h.1, ?_⟩
  rw [stepG_res]
  rcases g with ⟨p, r, st⟩
  rcases st with (_ | ⟨e, es⟩) | _ | _ <;> cases r <;>
    simp_all [stepG, Goroutine.consistent, CallResult.returns]

theorem stepAt_path (i : Nat) (gs : List Goroutine) :
    (stepAt i gs).1.map Goroutine.path = gs.map Goroutine.path := by
  induction gs generalizing i with
  | nil => cases i <;> rfl
  | cons g gs ih =>
    cases i with
    | zero => simp [stepAt, stepG_path]
    | succ i => simp [stepAt, ih]

/-- A property of goroutines that a step keeps is kept by a step of the list. -/
theorem stepAt_forall (P : Goroutine → Prop) (hP : ∀ g, P g → P (stepG g).1)
    (i : Nat) (gs : List Goroutine) (h : ∀ g ∈ gs, P g) :
    ∀ g ∈ (stepAt i gs).1, P g := by
  induction gs generalizing i with
  | nil => cases i <;> simp [stepAt]
  | cons g gs ih =>
    have hg := h g (List.mem_cons_self _ _)
    have hgs : ∀ x ∈ gs, P x := fun x hx => h x (List.mem_cons_of_mem _ hx)
    cases i with
    | zero =>
      intro x hx
      simp only [stepAt, List.mem_cons] at hx
      rcases hx with rfl | hx
      · exact hP g hg
      · exact hgs x hx
    | succ i =>
      intro x hx
      simp only [stepAt, List.mem_cons] at hx
      rcases hx with rfl | hx
      · exact hg
      · exact ih i hgs x hx

theorem stepAt_remaining (i : Nat) (gs : List Goroutine) :
    ((stepAt i gs).2.1 ++ (stepAt i gs).1.flatMap remaining).Perm (gs.flatMap remaining) := by
  induction gs generalizing i with
  | nil => cases i <;> simp [stepAt]
  | cons g gs ih =>
    cases i with
    | zero =>
      simp only [stepAt, List.flatMap_cons]
      rw [← List.append_assoc, stepG_remaining]
    | succ i =>
      simp only [stepAt, List.flatMap_cons]
      have h := (ih i).append_left (remaining g)
      refine List.Perm.trans ?_ h
      rw [← List.append_assoc, ← List.append_assoc]
      exact List.Perm.append_right _ List.perm_append_comm

theorem stepAt_unf (i : Nat) (gs : List Goroutine) :
    ((stepAt i gs).1.map unf).sum + (stepAt i gs).2.2 = (gs.map unf).sum := by
  induction gs generalizing i with
  | nil => cases i <;> simp [stepAt]
  | cons g gs ih =>
    cases i with
    | zero =>
      have := stepG_unf g
      simp only [stepAt, List.map_cons, List.sum_cons]
      omega
    | succ i =>
      have := ih i
      simp only [stepAt, List.map_cons, List.sum_cons]
      omega

theorem firstEnabled_none (gs : List Goroutine) (h : firstEnabled gs = none) :
    ∀ g ∈ gs, canStep g = false := by
  induction gs with
  | nil => simp
  | cons g gs ih =>
    by_cases hc : canStep g = true
    · simp [firstEnabled, hc] at h
    · have hc2 : canStep g = false := by simpa using hc
      simp only [firstEnabled, hc2, Bool.false_eq_true, if_false, Option.map_eq_none'] at h
      intro x hx
      rcases List.mem_cons.1 hx with rfl | hx
      · exact hc2
      · exact ih h x hx

theorem firstEnabled_some (gs : List Goroutine) (i : Nat)
    (h : firstEnabled gs = some i) :
    ((stepAt i gs).1.map gSteps).sum < (gs.map gSteps).sum := by
  induction gs generalizing i with
  | nil => simp [firstEnabled] at h
  | cons g gs ih =>
    by_cases hc : canStep g = true
    · simp only [firstEnabled, hc, if_true, Option.some.injEq] at h
      subst h
      have h1 := stepG_gSteps g
      simp only [hc, if_true] at h1
      simp only [stepAt, List.map_cons, List.sum_cons]
      omega
    · have hc2 : canStep g = false := by simpa using hc
      simp only [firstEnabled, hc2, Bool.false_eq_true, if_false, Option.map_eq_some'] at h
      obtain ⟨j, hj, rfl⟩ := h
      have := ih j hj
      simp only [stepAt, List.map_cons, List.sum_cons]
      omega

/-- A goroutine that cannot step has nothing left to emit. -/
theorem remaining_of_stuck (g : Goroutine) (h : canStep g = false) : remaining g = [] := by
  rcases g with ⟨p, r, st⟩
  rcases st with (_ | ⟨e, es⟩) | _ | _ <;> rcases r with (_ | err) | _ <;>
    simp_all [canStep, remaining, CallResult.returns, CallResult.failed]

/-- A goroutine that cannot step and whose call returns has finished. -/
theorem finished_of_stuck (g : Goroutine) (h : canStep g = false)
    (hr : g.res.returns = true) : g.stage = Stage.finished := by
  rcases g with ⟨p, r, st⟩
  rcases st with (_ | ⟨e, es⟩) | _ | _ <;> simp_all [canStep]

/-! ## The invariant of `runMultipleClients` -/

theorem launchedPaths_failed (p : String) (d : Option DirEntry) (e : GoError)
    (rest : List Visit) :
    launchedPaths (Visit.failed p d e :: rest) = launchedPaths rest := by
  simp [launchedPaths, Visit.launches]

theorem launchedPaths_dir (p : String) (d : DirEntry) (rest : List Visit)
    (h : d.isDir = true) :
    launchedPaths (Visit.entry p d :: rest) = launchedPaths rest := by
  simp [launchedPaths, Visit.launches, h]

theorem launchedPaths_file (p : String) (d : DirEntry) (rest : List Visit)
    (h : d.isDir = false) :
    launchedPaths (Visit.entry p d :: rest) = p :: launchedPaths rest := by
  simp [launchedPaths, Visit.launches, h, Visit.path]

theorem remaining_spawn (env : Env) (strict ar : Bool) (p : String) :
    remaining (spawn env strict ar p) = sourceEvents env strict ar p := rfl

theorem unf_spawn (env : Env) (strict ar : Bool) (p : String) :
    unf (spawn env strict ar p) = 1 := rfl

theorem gSteps_spawn (env : Env) (strict ar : Bool) (p : String) :
    gSteps (spawn env strict ar p) = spawnCost env strict ar p := rfl

theorem consistent_spawn (env : Env) (strict ar : Bool) (p : String) :
    (spawn env strict ar p).consistent env strict ar := by
  refine ⟨rfl, ?_⟩
  intro h
  rcases h with h | h <;> simp [spawn] at h

theorem Inv_init (env : Env) (strict ar : Bool) (fs : FileSystem)
    (cfgDir : String) :
    Inv env strict ar (visits fs cfgDir) (WalkDir walkFn fs cfgDir []).2
      (initSup fs cfgDir) where
  wg_eq := rfl
  ret := by intro e h; simp [initSup] at h
  walk := rfl
  events := by simp [initSup]
  paths := by simp [initSup, pendingLaunch]
  good := by simp [initSup]

theorem Inv_stepMain (env : Env) (strict ar : Bool) (all : List Visit)
    (werr : Option GoError) (s : Sup) (h : Inv env strict ar all werr s) :
    Inv env strict ar all werr (stepMain env strict ar s) := by
  obtain ⟨hwg, hret, hwalk, hev, hpaths, hgood⟩ := h
  rcases s with ⟨main, wg, gs, out, walkErr⟩
  simp only at hwg hret hwalk hev hpaths hgood
  cases main with
  | walking rest =>
    cases rest with
    | nil =>
      exact ⟨by simpa [stepMain, addedNotStarted] using hwg, by simp [stepMain], hwalk,
        hev, by simpa [stepMain, pendingLaunch, launchedPaths] using hpaths, hgood⟩
    | cons v rest =>
      cases v with
      | failed p d e =>
        exact ⟨by simpa [stepMain, addedNotStarted] using hwg, by simp [stepMain], hwalk,
          hev, by simpa [stepMain, pendingLaunch, launchedPaths_failed] using hpaths, hgood⟩
      | entry p d =>
        cases hd : d.isDir with
        | true =>
          exact ⟨by simpa [stepMain, hd, addedNotStarted] using hwg, by simp [stepMain, hd],
            by simpa [stepMain, hd] using hwalk, by simpa [stepMain, hd] using hev,
            by simpa [stepMain, hd, pendingLaunch, launchedPaths_dir p d rest hd] using hpaths,
            by simpa [stepMain, hd] using hgood⟩
        | false =>
          refine ⟨?_, by simp [stepMain, hd], by simpa [stepMain, hd] using hwalk,
            by simpa [stepMain, hd] using hev,
            by simpa [stepMain, hd, pendingLaunch, launchedPaths_file p d rest hd] using hpaths,
            by simpa [stepMain, hd] using hgood⟩
          simp only [stepMain, hd, addedNotStarted] at hwg ⊢
          simp only [Bool.false_eq_true, if_false]
          rw [hwg]; push_cast; ring
  | spawning p rest =>
    refine ⟨?_, by simp [stepMain], hwalk, ?_, ?_, ?_⟩
    · simp only [stepMain, addedNotStarted] at hwg ⊢
      rw [hwg]
      simp [unf_spawn]
    · simp only [stepMain, List.flatMap_append, List.flatMap_cons, List.flatMap_nil,
        List.append_nil, remaining_spawn, spawn]
      rw [← List.append_assoc]
      exact List.Perm.append_right _ hev
    · simpa [stepMain, pendingLaunch, spawn] using hpaths
    · intro g hg
      simp only [stepMain, List.mem_append, List.mem_singleton] at hg
      rcases hg with hg | rfl
      · exact hgood g hg
      · exact consistent_spawn env strict ar p
  | waiting =>
    by_cases h0 : wg = 0
    · refine ⟨by simpa [stepMain, h0, addedNotStarted] using hwg, ?_,
        by simpa [stepMain, h0] using hwalk, by simpa [stepMain, h0] using hev,
        by simpa [stepMain, h0, pendingLaunch] using hpaths,
        by simpa [stepMain, h0] using hgood⟩
      intro e he
      simp only [stepMain, h0, if_true, MainPc.returned.injEq] at he
      subst h0
      simp only [addedNotStarted, Nat.add_zero] at hwg
      refine ⟨?_, by rw [← he, hwalk]⟩
      exact_mod_cast hwg.symm
    · exact ⟨by simpa [stepMain, h0, addedNotStarted] using hwg, by simp [stepMain, h0],
        by simpa [stepMain, h0] using hwalk, by simpa [stepMain, h0] using hev,
        by simpa [stepMain, h0, pendingLaunch] using hpaths,
        by simpa [stepMain, h0] using hgood⟩
  | returned e =>
    exact ⟨hwg, hret, hwalk, hev, hpaths, hgood⟩

theorem Inv_stepAt (env : Env) (strict ar : Bool) (all : List Visit)
    (werr : Option GoError) (s : Sup) (i : Nat) (h : Inv env strict ar all werr s) :
    Inv env strict ar all werr (step env strict ar s (i + 1)) := by
  obtain ⟨hwg, hret, hwalk, hev, hpaths, hgood⟩ := h
  have hu := stepAt_unf i s.gs
  have hp := stepAt_path i s.gs
  refine ⟨?_, ?_, hwalk, ?_, ?_,
    stepAt_forall _ (stepG_consistent env strict ar) i s.gs hgood⟩
  · show s.wg - ((stepAt i s.gs).2.2 : Int) =
      ((((stepAt i s.gs).1.map unf).sum + addedNotStarted s.main : Nat) : Int)
    rw [hwg]
    omega
  · intro e he
    have := hret e he
    refine ⟨?_, this.2⟩
    show ((stepAt i s.gs).1.map unf).sum = 0
    omega
  · show ((s.out ++ (stepAt i s.gs).2.1) ++ (stepAt i s.gs).1.flatMap remaining).Perm
      ((stepAt i s.gs).1.flatMap (fun g => sourceEvents env strict ar g.path))
    have hsrc : ∀ l : List Goroutine,
        l.flatMap (fun g => sourceEvents env strict ar g.path) =
          (l.map Goroutine.path).flatMap (sourceEvents env strict ar) := by
      intro l
      induction l with
      | nil => rfl
      | cons g l ih => simp [List.flatMap_cons, ih]
    rw [hsrc, hp, ← hsrc, List.append_assoc]
    exact ((stepAt_remaining i s.gs).append_left s.out).trans hev
  · show (stepAt i s.gs).1.map Goroutine.path ++ pendingLaunch s.main = _
    rw [hp]; exact hpaths

theorem Inv_step (env : Env) (strict ar : Bool) (all : List Visit)
    (werr : Option GoError) (s : Sup) (tid : Nat) (h : Inv env strict ar all werr s) :
    Inv env strict ar all werr (step env strict ar s tid) := by
  cases tid with
  | zero => exact Inv_stepMain env strict ar all werr s h
  | succ i => exact Inv_stepAt env strict ar all werr s i h

theorem Inv_exec (env : Env) (strict ar : Bool) (all : List Visit)
    (werr : Option GoError) (sched : List Nat) (s : Sup)
    (h : Inv env strict ar all werr s) :
    Inv env strict ar all werr (exec env strict ar s sched) := by
  induction sched generalizing s with
  | nil => exact h
  | cons tid sched ih => exact ih _ (Inv_step env strict ar all werr s tid h)

theorem Inv_drain (env : Env) (strict ar : Bool) (all : List Visit)
    (werr : Option GoError) (n : Nat) (s : Sup)
    (h : Inv env strict ar all werr s) :
    Inv env strict ar all werr (drain env strict ar n s) := by
  induction n generalizing s with
  | zero => exact h
  | succ n ih => exact ih _ (Inv_step env strict ar all werr s _ h)

/-! ## `runMultipleClients` returns -/

theorem step_main_returned (env : Env) (strict ar : Bool) (s : Sup) (tid : Nat)
    (e : Option GoError) (h : s.main = MainPc.returned e) :
    (step env strict ar s tid).main = MainPc.returned e := by
  cases tid with
  | zero =>
    rcases s with ⟨main, wg, gs, out, walkErr⟩
    simp only at h
    subst h
    rfl
  | succ i => exact h

theorem drain_of_returned (env : Env) (strict ar : Bool) (n : Nat) (s : Sup)
    (e : Option GoError) (h : s.main = MainPc.returned e) :
    (drain env strict ar n s).main = MainPc.returned e := by
  induction n generalizing s with
  | zero => exact h
  | succ n ih => exact ih _ (step_main_returned env strict ar s _ e h)

theorem drain_fix (env : Env) (strict ar : Bool) (n : Nat) (s : Sup)
    (h : step env strict ar s (nextTid s) = s) : drain env strict ar n s = s := by
  induction n with
  | zero => rfl
  | succ n ih =>
    show drain env strict ar n (step env strict ar s (nextTid s)) = s
    rw [h, ih]

theorem step_parked (env : Env) (strict ar : Bool) (s : Sup) (h : parked s) :
    step env strict ar s (nextTid s) = s := by
  obtain ⟨hm, hf, hw⟩ := h
  rcases s with ⟨main, wg, gs, out, walkErr⟩
  simp only at hm hf hw
  subst hm
  simp [nextTid, hf, step, stepMain, hw]

theorem fair_step_decreases (env : Env) (strict ar : Bool) (s : Sup)
    (hnr : ∀ e, s.main ≠ MainPc.returned e) (hnp : ¬ parked s) :
    stepsLeft env strict ar (step env strict ar s (nextTid s)) < stepsLeft env strict ar s := by
  rcases s with ⟨main, wg, gs, out, walkErr⟩
  simp only at hnr
  cases main with
  | walking rest =>
    cases rest with
    | nil => simp [nextTid, step, stepMain, stepsLeft, walkCost]
    | cons v rest =>
      cases v with
      | failed p d e =>
        simp [nextTid, step, stepMain, stepsLeft, walkCost, Visit.launches]
      | entry p d =>
        cases hd : d.isDir with
        | true => simp [nextTid, step, stepMain, stepsLeft, walkCost, Visit.launches, hd]
        | false =>
          simp only [nextTid, step, stepMain, stepsLeft, walkCost, Visit.launches, hd,
            Visit.path, Bool.not_false, if_true, Bool.false_eq_true, if_false]
          omega
  | spawning p rest =>
    simp only [nextTid, step, stepMain, stepsLeft, List.map_append, List.sum_append,
      List.map_cons, List.map_nil, List.sum_cons, List.sum_nil, gSteps_spawn]
    omega
  | waiting =>
    cases hfu : firstEnabled gs with
    | none =>
      have h0 : wg = 0 := by
        by_contra hw
        exact hnp ⟨rfl, hfu, hw⟩
      simp [nextTid, hfu, step, stepMain, h0, stepsLeft]
    | some i =>
      have := firstEnabled_some gs i hfu
      simp only [nextTid, hfu, step, stepsLeft]
      omega
  | returned e => exact absurd rfl (hnr e)

/-- The fair scheduler, given the steps left, runs to the return of
`runMultipleClients` or to a state in which it never returns. -/
theorem drain_settles (env : Env) (strict ar : Bool) (n : Nat) (s : Sup)
    (hn : stepsLeft env strict ar s ≤ n) :
    (∃ e, (drain env strict ar n s).main = MainPc.returned e) ∨
      parked (drain env strict ar n s) := by
  induction n generalizing s with
  | zero =>
    rcases s with ⟨main, wg, gs, out, walkErr⟩
    cases main with
    | returned e => exact Or.inl ⟨e, rfl⟩
    | walking rest => simp [stepsLeft] at hn
    | spawning p rest => simp only [stepsLeft] at hn; omega
    | waiting => simp [stepsLeft] at hn
  | succ n ih =>
    by_cases hr : ∃ e, s.main = MainPc.returned e
    · obtain ⟨e, he⟩ := hr
      exact Or.inl ⟨e, drain_of_returned env strict ar (n + 1) s e he⟩
    · by_cases hp : parked s
      · right
        rw [drain_fix env strict ar (n + 1) s (step_parked env strict ar s hp)]
        exact hp
      · have hnr : ∀ e, s.main ≠ MainPc.returned e := fun e he => hr ⟨e, he⟩
        have hdec := fair_step_decreases env strict ar s hnr hp
        exact ih _ (by omega)

/-- What the fair scheduler does is a schedule: a drained state is a state the
machine reaches under a longer schedule. -/
theorem drain_eq_exec (env : Env) (strict ar : Bool) (n : Nat) (s : Sup) :
    ∃ more : List Nat, drain env strict ar n s = exec env strict ar s more := by
  induction n generalizing s with
  | zero => exact ⟨[], rfl⟩
  | succ n ih =>
    obtain ⟨more, hmore⟩ := ih (step env strict ar s (nextTid s))
    exact ⟨nextTid s :: more, hmore⟩

theorem exec_append (env : Env) (strict ar : Bool) (s : Sup) (a b : List Nat) :
    exec env strict ar s (a ++ b) = exec env strict ar (exec env strict ar s a) b := by
  simp [exec, List.foldl_append]

/-! ## The walk with a callback that always returns nil -/

mutual
theorem walkDir_ok {σ : Type} (fn : σ → Visit → σ × WalkRet)
    (hfn : ∀ s v, (fn s v).2 = WalkRet.ok) (join : String → String → String)
    (path : String) :
    ∀ (node : FsNode) (s : σ),
      walkDir fn join path node s =
        ((visitsNode join path node).foldl (fun s v => (fn s v).1) s, WalkRet.ok)
  | FsNode.file name, s => by
    simp only [walkDir, visitsNode, List.foldl_cons, List.foldl_nil]
    exact Prod.ext rfl (hfn _ _)
  | FsNode.dir name entries readErr, s => by
    have h1 : fn s (Visit.entry path ⟨name, true⟩) =
        ((fn s (Visit.entry path ⟨name, true⟩)).1, WalkRet.ok) := Prod.ext rfl (hfn _ _)
    cases readErr with
    | none =>
      rw [walkDir, h1]
      simp only [visitsNode, List.nil_append, List.foldl_cons]
      exact walkEntries_ok fn hfn join path entries _
    | some e =>
      have h2 : ∀ s1, fn s1 (Visit.failed path (some ⟨name, true⟩) e) =
          ((fn s1 (Visit.failed path (some ⟨name, true⟩) e)).1, WalkRet.ok) :=
        fun s1 => Prod.ext rfl (hfn _ _)
      rw [walkDir, h1]
      simp only []
      rw [h2]
      simp only [visitsNode, List.cons_append, List.nil_append, List.foldl_cons]
      exact walkEntries_ok fn hfn join path entries _
theorem walkEntries_ok {σ : Type} (fn : σ → Visit → σ × WalkRet)
    (hfn : ∀ s v, (fn s v).2 = WalkRet.ok) (join : String → String → String)
    (path : String) :
    ∀ (entries : List FsNode) (s : σ),
      walkEntries fn join path entries s =
        ((visitsEntries join path entries).foldl (fun s v => (fn s v).1) s, WalkRet.ok)
  | [], s => by simp [walkEntries, visitsEntries]
  | d1 :: rest, s => by
    rw [walkEntries, walkDir_ok fn hfn join (join path d1.name) d1 s]
    simp only [visitsEntries, List.foldl_append]
    exact walkEntries_ok fn hfn join path rest _
end

/-- A walk whose callback always returns nil calls it on every visit, in
order, and returns nil. -/
theorem WalkDir_ok {σ : Type} (fn : σ → Visit → σ × WalkRet)
    (hfn : ∀ s v, (fn s v).2 = WalkRet.ok)
    (fs : FileSystem) (root : String) (s : σ) :
    WalkDir fn fs root s =
      ((visits fs root).foldl (fun s v => (fn s v).1) s, none) := by
  unfold WalkDir visits
  cases fs.lstat root with
  | error e =>
    have : fn s (Visit.failed root none e) =
        ((fn s (Visit.failed root none e)).1, WalkRet.ok) := Prod.ext rfl (hfn _ _)
    simp only []
    rw [this]
    rfl
  | ok node =>
    simp only []
    rw [walkDir_ok fn hfn fs.join root node s]

theorem walkFn_ok (launched : List String) (v : Visit) : (walkFn launched v).2 = WalkRet.ok := by
  cases v with
  | failed p d e => rfl
  | entry p d => cases hd : d.isDir <;> simp [walkFn, hd]

theorem walkFn_foldl (vs : List Visit) (launched : List String) :
    vs.foldl (fun s v => (walkFn s v).1) launched = launched ++ launchedPaths vs := by
  induction vs generalizing launched with
  | nil => simp [launchedPaths]
  | cons v vs ih =>
    cases v with
    | failed p d e =>
      rw [List.foldl_cons, launchedPaths_failed]
      exact ih _
    | entry p d =>
      cases hd : d.isDir with
      | true =>
        have h1 : (walkFn launched (Visit.entry p d)).1 = launched := by simp [walkFn, hd]
        rw [List.foldl_cons, h1, launchedPaths_dir p d vs hd]
        exact ih _
      | false =>
        have h1 : (walkFn launched (Visit.entry p d)).1 = launched ++ [p] := by
          simp [walkFn, hd]
        rw [List.foldl_cons, h1, launchedPaths_file p d vs hd, ih]
        simp

/-- The walk of `runMultipleClients` returns nil, and its callback starts a
goroutine for exactly the launching visits, in walk order. -/
theorem WalkDir_walkFn (fs : FileSystem) (root : String) :
    WalkDir walkFn fs root [] = (launchedPaths (visits fs root), none) := by
  rw [WalkDir_ok walkFn walkFn_ok, walkFn_foldl]
  rfl

/-! ## What a finished run of `runMultipleClients` looks like -/

theorem all_finished_of_unf (gs : List Goroutine) (h : (gs.map unf).sum = 0) :
    (∀ g ∈ gs, g.stage = Stage.finished) ∧ gs.flatMap remaining = [] := by
  induction gs with
  | nil => simp
  | cons g gs ih =>
    simp only [List.map_cons, List.sum_cons] at h
    have hg : unf g = 0 := by omega
    have hgs := ih (by omega)
    have hst : g.stage = Stage.finished := by
      rcases g with ⟨p, r, st⟩
      cases st <;> simp_all [unf]
    refine ⟨?_, ?_⟩
    · intro x hx
      rcases List.mem_cons.1 hx with rfl | hx
      · exact hst
      · exact hgs.1 x hx
    · simp [List.flatMap_cons, hgs.2, remaining, hst]

theorem flatMap_sourceEvents (env : Env) (strict ar : Bool) (gs : List Goroutine) :
    gs.flatMap (fun g => sourceEvents env strict ar g.path) =
      (gs.map Goroutine.path).flatMap (sourceEvents env strict ar) := by
  induction gs with
  | nil => rfl
  | cons g gs ih => simp [List.flatMap_cons, ih]

theorem unf_sum_of_finished (gs : List Goroutine)
    (h : ∀ g ∈ gs, g.stage = Stage.finished) : (gs.map unf).sum = 0 := by
  induction gs with
  | nil => rfl
  | cons g gs ih =>
    have hg := h g (List.mem_cons_self _ _)
    have := ih (fun x hx => h x (List.mem_cons_of_mem _ hx))
    simp [unf, hg, this]

theorem flatMap_remaining_of_stuck (gs : List Goroutine)
    (h : ∀ g ∈ gs, canStep g = false) : gs.flatMap remaining = [] := by
  induction gs with
  | nil => rfl
  | cons g gs ih =>
    simp [List.flatMap_cons, remaining_of_stuck g (h g (List.mem_cons_self _ _)),
      ih (fun x hx => h x (List.mem_cons_of_mem _ hx))]

theorem canStep_of_finished (g : Goroutine) (h : g.stage = Stage.finished) :
    canStep g = false := by
  rcases g with ⟨p, r, st⟩
  simp only at h
  subst h
  rfl

/-- In every state a run can reach, if `runMultipleClients` has returned then it
returned nil, a goroutine was started for each launching visit, in walk order,
each of them has finished, so each of their `runClient` calls returned, and
the trace is an interleaving of their events. -/
theorem returned_state (env : Env) (strict ar : Bool) (all : List Visit) (s : Sup)
    (h : Inv env strict ar all none s) (e : Option GoError)
    (he : s.main = MainPc.returned e) :
    e = none ∧ (∀ g ∈ s.gs, g.stage = Stage.finished) ∧
    s.gs.map Goroutine.path = launchedPaths all ∧
    s.out.Perm ((launchedPaths all).flatMap (sourceEvents env strict ar)) ∧
    allReturn env strict ar (launchedPaths all) := by
  obtain ⟨-, hret, -, hev, hpaths, hgood⟩ := h
  obtain ⟨hu, hnone⟩ := hret e he
  obtain ⟨hfin, hrem⟩ := all_finished_of_unf s.gs hu
  have hp : s.gs.map Goroutine.path = launchedPaths all := by
    rw [he] at hpaths
    simpa [pendingLaunch] using hpaths
  refine ⟨hnone, hfin, hp, ?_, ?_⟩
  · rw [hrem, List.append_nil, flatMap_sourceEvents, hp] at hev
    exact hev
  · intro p hp2
    rw [← hp] at hp2
    obtain ⟨g, hg, rfl⟩ := List.mem_map.1 hp2
    have hc := hgood g hg
    rw [← hc.1]
    exact hc.2 (Or.inr (hfin g hg))

/-- In a reachable state in which `runMultipleClients` never returns, the walk is
over, a goroutine was started for each launching visit, every event of their
`runClient` calls and every failure line is out, and the `runClient` call of at
least one of them never returns. -/
theorem parked_state (env : Env) (strict ar : Bool) (all : List Visit) (s : Sup)
    (h : Inv env strict ar all none s) (hp : parked s) :
    s.gs.map Goroutine.path = launchedPaths all ∧
    s.out.Perm ((launchedPaths all).flatMap (sourceEvents env strict ar)) ∧
    ¬ allReturn env strict ar (launchedPaths all) := by
  obtain ⟨hwg, -, -, hev, hpaths, hgood⟩ := h
  obtain ⟨hm, hf, hw⟩ := hp
  have hstuck := firstEnabled_none s.gs hf
  have hpath : s.gs.map Goroutine.path = launchedPaths all := by
    rw [hm] at hpaths
    simpa [pendingLaunch] using hpaths
  refine ⟨hpath, ?_, ?_⟩
  · rw [flatMap_remaining_of_stuck s.gs hstuck, List.append_nil, flatMap_sourceEvents,
      hpath] at hev
    exact hev
  · intro hall
    apply hw
    have hfin : ∀ g ∈ s.gs, g.stage = Stage.finished := by
      intro g hg
      refine finished_of_stuck g (hstuck g hg) ?_
      rw [(hgood g hg).1]
      exact hall g.path (by rw [← hpath]; exact List.mem_map_of_mem _ hg)
    rw [hwg, hm, unf_sum_of_finished s.gs hfin]
    rfl

theorem Inv_reachable (env : Env) (strict ar : Bool)
    (fs : FileSystem) (cfgDir : String) (sched : List Nat) :
    Inv env strict ar (visits fs cfgDir) none
      (exec env strict ar (initSup fs cfgDir) sched) := by
  have h := Inv_init env strict ar fs cfgDir
  rw [WalkDir_walkFn] at h
  exact Inv_exec env strict ar _ none sched _ h

/-- Every run of `runMultipleClients` starts a goroutine for each launching
visit, in walk order, and its trace is an interleaving of the events of the
launched sources.  It returns if and only if the `runClient` call of every
launched source returns, and then it returns nil. -/
theorem runMultipleClients_final (env : Env) (strict : Bool)
    (fs : FileSystem) (sched : List Nat) (cfgDir : String)
    (ar : Bool) :
    (runMultipleClients env strict fs sched cfgDir ar).gs.map Goroutine.path =
      launchedPaths (visits fs cfgDir) ∧
    (runMultipleClients env strict fs sched cfgDir ar).out.Perm
      ((launchedPaths (visits fs cfgDir)).flatMap (sourceEvents env strict ar)) ∧
    (allReturn env strict ar (launchedPaths (visits fs cfgDir)) →
      (runMultipleClients env strict fs sched cfgDir ar).main = MainPc.returned none ∧
      ∀ g ∈ (runMultipleClients env strict fs sched cfgDir ar).gs,
        g.stage = Stage.finished) ∧
    (¬ allReturn env strict ar (launchedPaths (visits fs cfgDir)) →
      (runMultipleClients env strict fs sched cfgDir ar).returnValue = none) := by
  have hreach := Inv_reachable env strict ar fs cfgDir sched
  have hinv := Inv_drain env strict ar _ none
    (stepsLeft env strict ar (exec env strict ar (initSup fs cfgDir) sched)) _ hreach
  rcases drain_settles env strict ar _ _ (le_refl _) with ⟨e, he⟩ | hp
  · have h := returned_state env strict ar _ _ hinv e he
    refine ⟨h.2.2.1, h.2.2.2.1, ?_, ?_⟩
    · intro _
      have := h.1
      subst this
      exact ⟨he, h.2.1⟩
    · intro hn
      exact absurd h.2.2.2.2 hn
  · have h := parked_state env strict ar _ _ hinv hp
    refine ⟨h.1, h.2.1, ?_, ?_⟩
    · intro hall
      exact absurd hall h.2.2
    · intro _
      show Sup.returnValue (drain env strict ar _ _) = none
      simp [Sup.returnValue, hp.1]

theorem failureMessages_eq_filterMap (t : List Event) :
    failureMessages t =
      t.filterMap (fun e => match e with
        | Event.printClientFailed p => some p
        | _ => none) := by
  induction t with
  | nil => rfl
  | cons e t ih => cases e <;> simp [failureMessages, ih]

theorem launchCalls_eq_filterMap (t : List Event) :
    launchCalls t =
      t.filterMap (fun e => match e with
        | Event.loadClientConfig p _ a => some (p, a)
        | _ => none) := by
  induction t with
  | nil => rfl
  | cons e t ih => cases e <;> simp [launchCalls, ih]

theorem failureMessages_perm (a b : List Event) (h : a.Perm b) :
    (failureMessages a).Perm (failureMessages b) := by
  rw [failureMessages_eq_filterMap, failureMessages_eq_filterMap]
  exact h.filterMap _

theorem launchCalls_perm (a b : List Event) (h : a.Perm b) :
    (launchCalls a).Perm (launchCalls b) := by
  rw [launchCalls_eq_filterMap, launchCalls_eq_filterMap]
  exact h.filterMap _

theorem failureMessages_sources (env : Env) (strict ar : Bool) (ps : List String) :
    failureMessages (ps.flatMap (sourceEvents env strict ar)) =
      ps.filter (fun p => (runClient env strict p ar).2.failed) := by
  induction ps with
  | nil => rfl
  | cons p ps ih =>
    cases hr : (runClient env strict p ar).2.failed <;>
      simp [List.flatMap_cons, sourceEvents, failureMessages_append,
        failureMessages_runClient, failureMessages, hr, ih]

theorem launchCalls_sources (env : Env) (strict ar : Bool) (ps : List String) :
    launchCalls (ps.flatMap (sourceEvents env strict ar)) = ps.map (fun p => (p, ar)) := by
  induction ps with
  | nil => rfl
  | cons p ps ih =>
    cases hr : (runClient env strict p ar).2.failed <;>
      simp [List.flatMap_cons, sourceEvents, launchCalls_append,
        launchCalls_runClient, launchCalls, hr, ih]

theorem sources_no_fetch (env : Env) (strict ar : Bool) (ps : List String) :
    ∀ e ∈ ps.flatMap (sourceEvents env strict ar), e.isFetch = false := by
  intro e he
  obtain ⟨p, -, hp⟩ := List.mem_flatMap.1 he
  rcases List.mem_append.1 hp with h | h
  · exact runClient_no_fetch env strict p ar e h
  · by_cases hs : (runClient env strict p ar).2.failed = true
    · simp only [hs, if_true, List.mem_singleton] at h
      subst h; rfl
    · simp [hs] at h

/-- Every load call of the token/tunnel loop has `alreadyRead = true`. -/
theorem launchTunnels_calls (env : Env) (strict : Bool) (data : JMap)
    (tunnels : List String) :
    (∀ c ∈ launchCalls (launchTunnels env strict data tunnels).1, c.2 = true) := by
  induction tunnels with
  | nil => simp [launchTunnels, launchCalls]
  | cons t rest ih =>
    unfold launchTunnels
    split
    · split
      · rename_i content _
        have hl := launchCalls_runClient env strict content true
        split
        · rename_i tr err hrc
          rw [hrc] at hl
          intro c hc
          simp only [launchCalls_append, hl, List.mem_append, List.mem_singleton] at hc
          rcases hc with rfl | hc
          · rfl
          · exact ih c hc
        · rename_i tr hrc
          rw [hrc] at hl
          intro c hc
          simp only [hl, List.mem_singleton] at hc
          subst hc
          rfl
      · simp [launchCalls]
    · intro c hc
      simp only [launchCalls] at hc
      exact ih c hc

/-- Function `getUserTunnels` starts with the HTTP call; either it ends the process
after at most the error line, or it returns the `tunnel` object. -/
theorem getUserTunnels_cases (post : String → PostResult) (token : String) :
    (∃ o rest, getUserTunnels post token = (Event.httpPost token :: rest, Except.error o) ∧
      launchCalls rest = []) ∨
    (∃ data, getUserTunnels post token = ([Event.httpPost token], Except.ok data)) := by
  unfold getUserTunnels
  cases post token with
  | transportError e => exact Or.inl ⟨_, _, rfl, rfl⟩
  | response code body =>
    dsimp only
    by_cases hc : code ≠ 200
    · rw [if_pos hc]
      exact Or.inl ⟨_, _, rfl, rfl⟩
    · rw [if_neg hc]
      split
      · exact Or.inr ⟨_, rfl⟩
      · exact Or.inl ⟨_, _, rfl, rfl⟩

/-! ## The launcher: `startService` and `runClient` -/

/-- Claim C4.  When service construction succeeds, `startService` starts
`handleTermSignal` on the service if and only if `cfg.Transport.Protocol` is
exactly `kcp` or `quic`, and then on that service only; for every other protocol
string it starts no signal handler, and no `GracefulClose` call is made by this
layer, whether or not a signal is delivered. -/
theorem startService_drain_registration (env : Env) (cfg : ClientCommonConfig)
    (proxyCfgs : List ProxyConfigurer) (visitorCfgs : List VisitorConfigurer)
    (cfgFile : String) (svr : Service)
    (hsvc : env.newService
      { common := cfg, proxyCfgs := proxyCfgs, visitorCfgs := visitorCfgs,
        configFilePath := cfgFile } = Except.ok svr) :
    (Event.goHandleTermSignal svr ∈ (startService env cfg proxyCfgs visitorCfgs cfgFile).1 ↔
      (cfg.transportProtocol = "kcp" ∨ cfg.transportProtocol = "quic")) ∧
    ((cfg.transportProtocol = "kcp" ∨ cfg.transportProtocol = "quic") →
      spawnedHandlers (startService env cfg proxyCfgs visitorCfgs cfgFile).1 = [svr]) ∧
    (¬ (cfg.transportProtocol = "kcp" ∨ cfg.transportProtocol = "quic") →
      spawnedHandlers (startService env cfg proxyCfgs visitorCfgs cfgFile).1 = [] ∧
      ∀ (signalDelivered : Bool) (s : Service) (timeoutMs : Nat),
        Event.gracefulClose s timeoutMs ∉
          layerEvents (startService env cfg proxyCfgs visitorCfgs cfgFile).1 signalDelivered) := by
  by_cases hp : cfg.transportProtocol = "kcp" ∨ cfg.transportProtocol = "quic"
  · have hb : (cfg.transportProtocol == "kcp" || cfg.transportProtocol == "quic") = true := by
      simpa using hp
    simp [startService, hsvc, hb, hp, spawnedHandlers]
  · have hb : (cfg.transportProtocol == "kcp" || cfg.transportProtocol == "quic") = false := by
      simpa using hp
    simp [startService, hsvc, hb, hp, spawnedHandlers, layerEvents]

/-- Witness of claim C4 on the sample collaborators: with protocol `quic` the handler is
started on the constructed service, with protocol `tcp` none is started. -/
theorem startService_drain_registration_witness :
    sampleEnv.newService
      { common := sampleCfg "quic", proxyCfgs := [], visitorCfgs := [],
        configFilePath := "f" } = Except.ok ⟨7⟩ ∧
    spawnedHandlers (startService sampleEnv (sampleCfg "quic") [] [] "f").1 = [⟨7⟩] ∧
    spawnedHandlers (startService sampleEnv (sampleCfg "tcp") [] [] "f").1 = [] :=
  ⟨rfl,
   (startService_drain_registration sampleEnv (sampleCfg "quic") [] [] "f" ⟨7⟩ rfl).2.1
     (Or.inr rfl),
   ((startService_drain_registration sampleEnv (sampleCfg "tcp") [] [] "f" ⟨7⟩ rfl).2.2
     (by decide)).1⟩

/-- Claim C7.  When `LoadClientConfig` returns an error, `runClient` returns that
error and its only event is the load call: no validator call, no logger set-up,
no service constructed, no `Run`.  In single-file mode (version flag unset, no
token or no tunnel, no config directory) the root command then prints that
error and ends the process with exit code 1. -/
theorem runClient_load_failure (f : Flags) (w : World) (path : String) (alreadyRead : Bool)
    (err : GoError)
    (hload : w.env.loadClientConfig path f.strictConfigMode alreadyRead = Except.error err) :
    runClient w.env f.strictConfigMode path alreadyRead =
      ([Event.loadClientConfig path f.strictConfigMode alreadyRead],
        CallResult.returned (some err)) ∧
    (f.showVersion = false → (f.token = "" ∨ f.tunnels = []) → f.cfgDir = "" →
      path = f.cfgFile → alreadyRead = false →
      rootRunE f w =
        ([Event.loadClientConfig f.cfgFile f.strictConfigMode false, Event.printlnErr err],
          Outcome.exited 1)) := by
  have h1 : runClient w.env f.strictConfigMode path alreadyRead =
      ([Event.loadClientConfig path f.strictConfigMode alreadyRead],
        CallResult.returned (some err)) := by
    simp [runClient, hload]
  refine ⟨h1, ?_⟩
  intro hv hmode hdir hp ha
  subst hp ha
  have hm : ¬ (f.token ≠ "" ∧ f.tunnels.length ≠ 0) := by
    rcases hmode with h | h <;> simp [h]
  rw [rootRunE_file_mode f w hv hm hdir, h1]
  rfl

/-- Witness of claim C7: the sample single-file run on a file that cannot be loaded. -/
theorem runClient_load_failure_witness :
    sampleWorld.env.loadClientConfig "bad" sampleFileFlags.strictConfigMode false =
      Except.error ⟨"cannot load"⟩ ∧
    rootRunE sampleFileFlags sampleWorld =
      ([Event.loadClientConfig "bad" true false, Event.printlnErr ⟨"cannot load"⟩],
        Outcome.exited 1) :=
  ⟨rfl,
   (runClient_load_failure sampleFileFlags sampleWorld "bad" false ⟨"cannot load"⟩ rfl).2
     rfl (Or.inl rfl) rfl rfl rfl⟩

/-- Claim C8.  For a loaded config: if validation returns an error, `runClient`
returns that error after printing the warning (if one came with it), and no
logger is set up, no service is constructed and none is run; if validation
returns a warning and no error, the warning is printed and `runClient` goes on
with `startService` on the loaded config and returns exactly what it returns. -/
theorem runClient_validation (env : Env) (strict : Bool) (path : String) (alreadyRead : Bool)
    (r : LoadedConfig)
    (hload : env.loadClientConfig path strict alreadyRead = Except.ok r) :
    (∀ (warning : Option GoError) (err : GoError),
      env.validateAllClientConfig r.cfg r.proxyCfgs r.visitorCfgs = (warning, some err) →
      (runClient env strict path alreadyRead).2 = CallResult.returned (some err) ∧
      (∀ e ∈ (runClient env strict path alreadyRead).1, e.isService = false) ∧
      (∀ wn, warning = some wn →
        Event.printWarning wn ∈ (runClient env strict path alreadyRead).1)) ∧
    (∀ (wn : GoError),
      env.validateAllClientConfig r.cfg r.proxyCfgs r.visitorCfgs = (some wn, none) →
      (runClient env strict path alreadyRead).2 =
        (startService env r.cfg r.proxyCfgs r.visitorCfgs path).2 ∧
      (runClient env strict path alreadyRead).1 =
        Event.loadClientConfig path strict alreadyRead ::
          ((if r.isLegacyFormat then [Event.printLegacyNotice] else []) ++
            [Event.validateAllClientConfig r.cfg, Event.printWarning wn] ++
            (startService env r.cfg r.proxyCfgs r.visitorCfgs path).1)) := by
  constructor
  · intro warning err hv
    cases warning <;> cases hleg : r.isLegacyFormat <;>
      simp [runClient, hload, hv, hleg, Event.isService]
  · intro wn hv
    simp [runClient, hload, hv]

/-- Witness of claim C8: on the sample collaborators the source `inv` loads, validation
returns a warning and an error, and `runClient` returns the error without a
service; the source `warn` loads with a warning only and `runClient` returns
what `startService` returns. -/
theorem runClient_validation_witness :
    sampleEnv.loadClientConfig "inv" true false =
      Except.ok { cfg := sampleCfg "inv", proxyCfgs := [], visitorCfgs := [],
                  isLegacyFormat := false } ∧
    (runClient sampleEnv true "inv" false).2 = CallResult.returned (some ⟨"invalid"⟩) ∧
    (runClient sampleEnv true "warn" false).2 =
      (startService sampleEnv (sampleCfg "warn") [] [] "warn").2 :=
  ⟨rfl,
   ((runClient_validation sampleEnv true "inv" false
      { cfg := sampleCfg "inv", proxyCfgs := [], visitorCfgs := [], isLegacyFormat := false }
      rfl).1 (some ⟨"deprecated field"⟩) ⟨"invalid"⟩ rfl).1,
   ((runClient_validation sampleEnv true "warn" false
      { cfg := sampleCfg "warn", proxyCfgs := [], visitorCfgs := [], isLegacyFormat := false }
      rfl).2 ⟨"deprecated field"⟩ rfl).1⟩

/-! ## Token/tunnel mode -/

/-- Claim C1, the code at two failing inputs.  Tunnels `a` and `b` are requested
with a token and the service of `a` stays up, so the call `runClient` makes to
`svr.Run` for `a` never returns.  First input: the fetched mapping holds `a`
only; the run launches `a` and stays inside that call, and the warning for the
absent `b` is never logged.  Second input: the mapping holds `a` and `b`; the
only `runClient` call ever made is the one for `a`, and `b` is never
launched. -/
theorem token_mode_stops_at_live_tunnel :
    (runClient sampleEnv true "live" true).2 = CallResult.blocks ∧
    rootRunE sampleTokenFlags sampleWorldLive =
      ([Event.logInfoFetching, Event.httpPost "T",
        Event.loadClientConfig "live" true true,
        Event.validateAllClientConfig (sampleCfg "live"),
        Event.initLogger "console" "info" 3 false,
        Event.newService
          { common := sampleCfg "live", proxyCfgs := [], visitorCfgs := [],
            configFilePath := "live" },
        Event.run ⟨1⟩], Outcome.blocked) ∧
    missingWarnings (rootRunE sampleTokenFlags sampleWorldLive).1 = [] ∧
    launchCalls (rootRunE sampleTokenFlags sampleWorldLiveBoth).1 = [("live", true)] ∧
    (rootRunE sampleTokenFlags sampleWorldLiveBoth).2 = Outcome.blocked := by
  refine ⟨by decide, by decide, by decide, by decide, by decide⟩

/-- Claim C5.  In token/tunnel mode, when the tunnel fetch fails (transport
error, or a status code other than 200), the run is exactly: the info line, the
HTTP call, the error line, `os.Exit(1)`.  No `runClient` call is made, and any
two token/tunnel runs with the same token and the same fetch result are equal,
whatever the tunnels, the files and the collaborators. -/
theorem fetch_failure_fatal (f : Flags) (w : World)
    (hv : f.showVersion = false) (ht : f.token ≠ "") (hn : f.tunnels ≠ [])
    (hfail : fetchFailed (w.post f.token)) :
    rootRunE f w =
      ([Event.logInfoFetching, Event.httpPost f.token,
        Event.logErrorFetch (fetchError (w.post f.token))], Outcome.exited 1) ∧
    launchCalls (rootRunE f w).1 = [] ∧
    (∀ (f2 : Flags) (w2 : World), f2.showVersion = false → f2.token = f.token →
      f2.tunnels ≠ [] → w2.post f2.token = w.post f.token →
      rootRunE f2 w2 = rootRunE f w) := by
  have key : ∀ (g : Flags) (u : World), g.showVersion = false → g.token ≠ "" →
      g.tunnels ≠ [] → fetchFailed (u.post g.token) →
      rootRunE g u =
        ([Event.logInfoFetching, Event.httpPost g.token,
          Event.logErrorFetch (fetchError (u.post g.token))], Outcome.exited 1) := by
    intro g u gv gt gn gfail
    have hm : g.token ≠ "" ∧ g.tunnels.length ≠ 0 := ⟨gt, by simpa using gn⟩
    cases hp : u.post g.token with
    | transportError e =>
      rw [rootRunE_token_mode g u gv hm]
      simp [getUserTunnels, hp, fetchError]
    | response code body =>
      have hc : code ≠ 200 := by simpa [hp, fetchFailed] using gfail
      rw [rootRunE_token_mode g u gv hm]
      simp [getUserTunnels, hp, hc, fetchError]
  refine ⟨key f w hv ht hn hfail, ?_, ?_⟩
  · rw [key f w hv ht hn hfail]; rfl
  · intro f2 w2 hv2 ht2 hn2 hp2
    rw [key f w hv ht hn hfail, key f2 w2 hv2 (ht2 ▸ ht) hn2 (hp2 ▸ hfail), hp2, ht2]

/-- Witness of claim C5: the sample token/tunnel run against a fetch that answers 500. -/
theorem fetch_failure_fatal_witness :
    fetchFailed (sampleWorldDown.post sampleTokenFlags.token) ∧
    rootRunE sampleTokenFlags sampleWorldDown =
      ([Event.logInfoFetching, Event.httpPost "T", Event.logErrorFetch none],
        Outcome.exited 1) :=
  ⟨by simp [sampleWorldDown, fetchFailed],
   (fetch_failure_fatal sampleTokenFlags sampleWorldDown rfl (by decide) (by decide)
     (by simp [sampleWorldDown, fetchFailed])).1⟩

/-- Claim C9, the code at the failing input.  Tunnels `a` and `b` are requested
with a token; the `data` text of `a` cannot be loaded, so `runClient` returns an
error for it.  The run goes on to launch `b` and returns normally, and its
trace holds the two load calls and the events of the launch of `b` only: no
line reports the failure of `a`. -/
theorem token_mode_failure_not_logged :
    (runClient sampleWorldBad.env true "bad" true).2 =
      CallResult.returned (some ⟨"cannot load"⟩) ∧
    rootRunE sampleTokenFlags sampleWorldBad =
      ([Event.logInfoFetching, Event.httpPost "T",
        Event.loadClientConfig "bad" true true,
        Event.loadClientConfig "tcp" true true,
        Event.validateAllClientConfig (sampleCfg "tcp"),
        Event.initLogger "console" "info" 3 false,
        Event.newService
          { common := sampleCfg "tcp", proxyCfgs := [], visitorCfgs := [],
            configFilePath := "tcp" },
        Event.run ⟨7⟩], Outcome.returned none) := by
  constructor <;> decide

/-! ## Directory mode: `runMultipleClients` -/

/-- Claim C2.  Under every schedule of the goroutines, `runMultipleClients`
returns if and only if the `runClient` call of every launched source returns,
and the state it ends in is one the machine reaches by extending that schedule;
in every state a run can reach, if it has returned then a goroutine was started
for each launched source, each of them has finished and every failure line is
printed; and the failure lines of a run are, up to order, the paths of the
launched sources whose `runClient` returned an error, so there are as many
lines as failed sources and none names a source that succeeded. -/
theorem supervisor_failure_accounting (env : Env) (strict : Bool)
    (fs : FileSystem) (sched : List Nat) (cfgDir : String)
    (alreadyRead : Bool) :
    (allReturn env strict alreadyRead (launchedPaths (visits fs cfgDir)) ↔
      ∃ err, (runMultipleClients env strict fs sched cfgDir alreadyRead).returnValue =
        some err) ∧
    (∃ more : List Nat, runMultipleClients env strict fs sched cfgDir alreadyRead =
      exec env strict alreadyRead (initSup fs cfgDir) (sched ++ more)) ∧
    (∀ (sofar : List Nat) (err : Option GoError),
      (exec env strict alreadyRead (initSup fs cfgDir) sofar).main = MainPc.returned err →
      (exec env strict alreadyRead (initSup fs cfgDir) sofar).gs.map Goroutine.path =
        launchedPaths (visits fs cfgDir) ∧
      (∀ g ∈ (exec env strict alreadyRead (initSup fs cfgDir) sofar).gs,
        g.stage = Stage.finished) ∧
      (failureMessages (exec env strict alreadyRead (initSup fs cfgDir) sofar).out).Perm
        ((launchedPaths (visits fs cfgDir)).filter
          (fun p => (runClient env strict p alreadyRead).2.failed))) ∧
    (failureMessages (runMultipleClients env strict fs sched cfgDir alreadyRead).out).Perm
      ((launchedPaths (visits fs cfgDir)).filter
        (fun p => (runClient env strict p alreadyRead).2.failed)) ∧
    (failureMessages (runMultipleClients env strict fs sched cfgDir alreadyRead).out).length =
      ((launchedPaths (visits fs cfgDir)).filter
        (fun p => (runClient env strict p alreadyRead).2.failed)).length ∧
    (∀ p, p ∈ failureMessages (runMultipleClients env strict fs sched cfgDir alreadyRead).out →
      p ∈ launchedPaths (visits fs cfgDir) ∧
        (runClient env strict p alreadyRead).2.failed = true) := by
  obtain ⟨-, hperm, hyes, hno⟩ :=
    runMultipleClients_final env strict fs sched cfgDir alreadyRead
  have hfail := failureMessages_perm _ _ hperm
  rw [failureMessages_sources] at hfail
  refine ⟨⟨?_, ?_⟩, ?_, ?_, hfail, hfail.length_eq, ?_⟩
  · intro hall
    exact ⟨none, by simp [Sup.returnValue, (hyes hall).1]⟩
  · rintro ⟨err, herr⟩
    by_contra hall
    rw [hno hall] at herr
    cases herr
  · obtain ⟨more, hmore⟩ := drain_eq_exec env strict alreadyRead
      (stepsLeft env strict alreadyRead
        (exec env strict alreadyRead (initSup fs cfgDir) sched))
      (exec env strict alreadyRead (initSup fs cfgDir) sched)
    exact ⟨more, by rw [exec_append]; exact hmore⟩
  · intro sofar err herr
    have h := returned_state env strict alreadyRead _ _
      (Inv_reachable env strict alreadyRead fs cfgDir sofar) err herr
    have hf := failureMessages_perm _ _ h.2.2.2.1
    rw [failureMessages_sources] at hf
    exact ⟨h.2.2.1, h.2.1, hf⟩
  · intro p hp
    have := (hfail.mem_iff).1 hp
    simpa using this

/-- Claim C2 on the sample directory: three files, of which `inv` fails
validation and every `runClient` call returns; under the sample schedule
`runMultipleClients` returns and exactly one failure line is printed, which
names `d/inv`. -/
theorem supervisor_failure_accounting_witness :
    allReturn sampleEnv true false (launchedPaths (visits sampleTree "d")) ∧
    (∃ err, (runMultipleClients sampleEnv true sampleTree [0, 0, 0, 1, 2, 1] "d"
      false).returnValue = some err) ∧
    failureMessages (runMultipleClients sampleEnv true sampleTree [0, 0, 0, 1, 2, 1] "d" false).out
      = ["d/inv"] := by
  have hall : allReturn sampleEnv true false (launchedPaths (visits sampleTree "d")) := by
    unfold allReturn
    decide
  have h := supervisor_failure_accounting sampleEnv true sampleTree [0, 0, 0, 1, 2, 1] "d" false
  have hr : (launchedPaths (visits sampleTree "d")).filter
      (fun p => (runClient sampleEnv true p false).2.failed) = ["d/inv"] := by decide
  have hperm := h.2.2.2.1
  rw [hr] at hperm
  exact ⟨hall, h.1.1 hall, List.perm_singleton.1 hperm⟩

/-- Claim C3, refuted: in the sample directory with the single file `bad`, the
launched `runClient` task returns an error and `runMultipleClients` returns
nil. -/
theorem supervisor_return_counterexample :
    "d/bad" ∈ launchedPaths (visits sampleTreeBad "d") ∧
    (runClient sampleEnv true "d/bad" false).2 =
      CallResult.returned (some ⟨"cannot load"⟩) ∧
    (runMultipleClients sampleEnv true sampleTreeBad [] "d" false).returnValue = some none := by
  refine ⟨by decide, by decide, by decide⟩

/-- Claim C3, amended.  `runMultipleClients` returns the error of the directory
walk, which is nil because the callback never returns an error: under every
schedule, once the `runClient` call of every launched source has returned it
returns nil, whether or not one of them returned an error, and in no state a
run can reach has it returned an error that is not nil. -/
theorem supervisor_returns_nil (env : Env) (strict : Bool)
    (fs : FileSystem) (sched : List Nat) (cfgDir : String)
    (alreadyRead : Bool) :
    (WalkDir walkFn fs cfgDir []).2 = none ∧
    (allReturn env strict alreadyRead (launchedPaths (visits fs cfgDir)) →
      (runMultipleClients env strict fs sched cfgDir alreadyRead).returnValue = some none) ∧
    (∀ err, (runMultipleClients env strict fs sched cfgDir alreadyRead).returnValue =
      some err → err = none) ∧
    (∀ (sofar : List Nat) (err : Option GoError),
      (exec env strict alreadyRead (initSup fs cfgDir) sofar).main = MainPc.returned err →
      err = none) := by
  obtain ⟨-, -, hyes, hno⟩ := runMultipleClients_final env strict fs sched cfgDir alreadyRead
  refine ⟨by rw [WalkDir_walkFn], ?_, ?_, ?_⟩
  · intro hall
    simp [Sup.returnValue, (hyes hall).1]
  · intro err herr
    by_cases hall : allReturn env strict alreadyRead (launchedPaths (visits fs cfgDir))
    · rw [Sup.returnValue, (hyes hall).1] at herr
      simp only [Option.some.injEq] at herr
      exact herr.symm
    · rw [hno hall] at herr
      cases herr
  · intro sofar err herr
    exact (returned_state env strict alreadyRead _ _
      (Inv_reachable env strict alreadyRead fs cfgDir sofar) err herr).1

/-- Claim C3, amended, on the sample directory with the single file `bad`: its
`runClient` call returns (an error), and `runMultipleClients` returns nil. -/
theorem supervisor_returns_nil_witness :
    allReturn sampleEnv true false (launchedPaths (visits sampleTreeBad "d")) ∧
    (runMultipleClients sampleEnv true sampleTreeBad [1, 0] "d" false).returnValue =
      some none := by
  have hall : allReturn sampleEnv true false (launchedPaths (visits sampleTreeBad "d")) := by
    unfold allReturn
    decide
  exact ⟨hall, (supervisor_returns_nil sampleEnv true sampleTreeBad [1, 0] "d" false).2.1 hall⟩

/-- Claim C10.  Under every schedule, the goroutines `runMultipleClients` starts
are, in walk order, one for each visit reported without error whose entry is
not a directory, and the `runClient` calls of the run are, up to order, one
call `(path, alreadyRead)` for each of them; a visit reported with an error, or
a directory, starts none and the visits after it are still considered. -/
theorem directory_source_resolution (env : Env) (strict : Bool)
    (fs : FileSystem) (sched : List Nat) (cfgDir : String)
    (alreadyRead : Bool) :
    (runMultipleClients env strict fs sched cfgDir alreadyRead).gs.map Goroutine.path =
      ((visits fs cfgDir).filter Visit.launches).map Visit.path ∧
    (launchCalls (runMultipleClients env strict fs sched cfgDir alreadyRead).out).Perm
      (((visits fs cfgDir).filter Visit.launches).map (fun v => (v.path, alreadyRead))) ∧
    (∀ v, v.launches = true ↔ ∃ p d, v = Visit.entry p d ∧ d.isDir = false) ∧
    (∀ (before after : List Visit) (v : Visit),
      visits fs cfgDir = before ++ v :: after → v.launches = false →
      (runMultipleClients env strict fs sched cfgDir alreadyRead).gs.map Goroutine.path =
        launchedPaths before ++ launchedPaths after) := by
  obtain ⟨hpaths, hperm, -, -⟩ :=
    runMultipleClients_final env strict fs sched cfgDir alreadyRead
  have hcalls := launchCalls_perm _ _ hperm
  rw [launchCalls_sources] at hcalls
  refine ⟨hpaths, ?_, ?_, ?_⟩
  · simpa [launchedPaths, List.map_map] using hcalls
  · intro v
    cases v with
    | failed p d e => simp [Visit.launches]
    | entry p d =>
      constructor
      · intro h
        exact ⟨p, d, rfl, by simpa [Visit.launches] using h⟩
      · rintro ⟨p2, d2, heq, hd2⟩
        cases heq
        simp [Visit.launches, hd2]
  · intro before after v hsplit hv
    rw [hpaths, hsplit]
    simp [launchedPaths, List.filter_append, List.filter_cons, hv]

/-- Claim C10 on a sample directory whose listing fails after two entries: the
walk reports the directory, the listing error, the file, the sub-directory and
the file in it, and goroutines are started for the two files only. -/
theorem directory_source_resolution_witness :
    visits sampleTreeErr "d" =
      [Visit.entry "d" ⟨"d", true⟩, Visit.failed "d" (some ⟨"d", true⟩) ⟨"readdir"⟩,
       Visit.entry "d/a" ⟨"a", false⟩, Visit.entry "d/sub" ⟨"sub", true⟩,
       Visit.entry "d/sub/x" ⟨"x", false⟩] ∧
    (runMultipleClients sampleEnv true sampleTreeErr [1, 0, 0] "d" false).gs.map Goroutine.path =
      ["d/a", "d/sub/x"] := by
  refine ⟨by decide, ?_⟩
  rw [(directory_source_resolution sampleEnv true sampleTreeErr [1, 0, 0] "d" false).1]
  decide

/-! ## Mode selection -/

/-- Claim C6.  With the version flag unset exactly one launch path is taken.
If the token and the tunnel list are both non-empty: the run starts with the
fetch, every `runClient` call has `alreadyRead = true`, and the run does not
depend on `cfgFile`, `cfgDir`, the file system or the schedule.  Otherwise, if
`cfgDir` is non-empty: the run is that of `runMultipleClients(cfgDir, false)`,
it returns normally once every launched `runClient` call has returned (and
stays at `wg.Wait()` otherwise), makes no fetch, and its `runClient` calls are
(up to order) `(path, false)` for the launched files of the walk of `cfgDir`.
Otherwise: the run is the single call `runClient(cfgFile, false)`, followed by
the printed error if it returned one, and makes no fetch. -/
theorem mode_selection (f : Flags) (w : World) (hv : f.showVersion = false) :
    ((f.token ≠ "" ∧ f.tunnels ≠ []) →
      (∃ rest, (rootRunE f w).1 = Event.logInfoFetching :: Event.httpPost f.token :: rest) ∧
      (∀ c ∈ launchCalls (rootRunE f w).1, c.2 = true) ∧
      (∀ (cfgFile2 cfgDir2 : String) (fs2 : FileSystem) (sched2 : List Nat),
        rootRunE { f with cfgFile := cfgFile2, cfgDir := cfgDir2 }
          { w with fs := fs2, sched := sched2 } = rootRunE f w)) ∧
    (¬ (f.token ≠ "" ∧ f.tunnels ≠ []) → f.cfgDir ≠ "" →
      (rootRunE f w).1 =
        (runMultipleClients w.env f.strictConfigMode w.fs w.sched f.cfgDir false).out ∧
      (allReturn w.env f.strictConfigMode false (launchedPaths (visits w.fs f.cfgDir)) →
        (rootRunE f w).2 = Outcome.returned none) ∧
      (¬ allReturn w.env f.strictConfigMode false (launchedPaths (visits w.fs f.cfgDir)) →
        (rootRunE f w).2 = Outcome.blocked) ∧
      (∀ e ∈ (rootRunE f w).1, e.isFetch = false) ∧
      (launchCalls (rootRunE f w).1).Perm
        ((launchedPaths (visits w.fs f.cfgDir)).map (fun p => (p, false)))) ∧
    (¬ (f.token ≠ "" ∧ f.tunnels ≠ []) → f.cfgDir = "" →
      (rootRunE f w).1 =
        (runClient w.env f.strictConfigMode f.cfgFile false).1 ++
          (match (runClient w.env f.strictConfigMode f.cfgFile false).2 with
           | CallResult.returned (some err) => [Event.printlnErr err]
           | _ => []) ∧
      (∀ e ∈ (rootRunE f w).1, e.isFetch = false) ∧
      launchCalls (rootRunE f w).1 = [(f.cfgFile, false)]) := by
  have hlen : (f.token ≠ "" ∧ f.tunnels.length ≠ 0) ↔ (f.token ≠ "" ∧ f.tunnels ≠ []) := by
    simp
  refine ⟨?_, ?_, ?_⟩
  · intro hm
    have hm1 := hlen.2 hm
    have key : ∀ (g : Flags) (u : World), g.showVersion = false →
        (g.token ≠ "" ∧ g.tunnels.length ≠ 0) →
        rootRunE g u =
          match getUserTunnels u.post g.token with
          | (t, Except.error o) => (Event.logInfoFetching :: t, o)
          | (t, Except.ok data) =>
            (Event.logInfoFetching ::
              (t ++ (launchTunnels u.env g.strictConfigMode data g.tunnels).1),
              (launchTunnels u.env g.strictConfigMode data g.tunnels).2) :=
      rootRunE_token_mode
    refine ⟨?_, ?_, ?_⟩
    · rw [key f w hv hm1]
      rcases getUserTunnels_cases w.post f.token with ⟨o, rest, hg, -⟩ | ⟨data, hg⟩
      · rw [hg]; exact ⟨_, rfl⟩
      · rw [hg]; exact ⟨_, rfl⟩
    · rw [key f w hv hm1]
      rcases getUserTunnels_cases w.post f.token with ⟨o, rest, hg, hrest⟩ | ⟨data, hg⟩
      · rw [hg]
        intro c hc
        simp [launchCalls, hrest] at hc
      · rw [hg]
        intro c hc
        simp only [launchCalls, List.cons_append, List.nil_append] at hc
        exact launchTunnels_calls _ _ _ _ c hc
    · intro cfgFile2 cfgDir2 fs2 sched2
      rw [key f w hv hm1,
        key { f with cfgFile := cfgFile2, cfgDir := cfgDir2 }
          { w with fs := fs2, sched := sched2 } hv hm1]
  · intro hm hd
    have hm1 : ¬ (f.token ≠ "" ∧ f.tunnels.length ≠ 0) := fun h => hm (hlen.1 h)
    obtain ⟨-, hperm, hyes, hno⟩ :=
      runMultipleClients_final w.env f.strictConfigMode w.fs w.sched f.cfgDir false
    have hrun := rootRunE_dir_mode f w hv hm1 hd
    have hout : (rootRunE f w).1 =
        (runMultipleClients w.env f.strictConfigMode w.fs w.sched f.cfgDir false).out := by
      rw [hrun]
      split <;> rfl
    refine ⟨hout, ?_, ?_, ?_, ?_⟩
    · intro hall
      rw [hrun]
      simp [Sup.returnValue, (hyes hall).1]
    · intro hall
      rw [hrun, hno hall]
    · rw [hout]
      intro e he
      exact sources_no_fetch _ _ _ _ e ((hperm.mem_iff).1 he)
    · rw [hout]
      have := launchCalls_perm _ _ hperm
      rwa [launchCalls_sources] at this
  · intro hm hd
    have hm1 : ¬ (f.token ≠ "" ∧ f.tunnels.length ≠ 0) := fun h => hm (hlen.1 h)
    have hrun := rootRunE_file_mode f w hv hm1 hd
    have hshape : (rootRunE f w).1 =
        (runClient w.env f.strictConfigMode f.cfgFile false).1 ++
          (match (runClient w.env f.strictConfigMode f.cfgFile false).2 with
           | CallResult.returned (some err) => [Event.printlnErr err]
           | _ => []) := by
      rw [hrun]
      rcases hrc : runClient w.env f.strictConfigMode f.cfgFile false with
        ⟨t, (_ | err) | _⟩ <;> simp
    refine ⟨hshape, ?_, ?_⟩
    · rw [hshape]
      intro e he
      rcases List.mem_append.1 he with h | h
      · exact runClient_no_fetch _ _ _ _ e h
      · rcases hr : (runClient w.env f.strictConfigMode f.cfgFile false).2 with
          (_ | err) | _
        · simp [hr] at h
        · simp only [hr, List.mem_singleton] at h
          subst h; rfl
        · simp [hr] at h
    · rw [hshape, launchCalls_append, launchCalls_runClient]
      rcases hr : (runClient w.env f.strictConfigMode f.cfgFile false).2 with
        (_ | err) | _ <;> simp [launchCalls]

/-- Claim C6 on the sample inputs: with a token and two tunnels the run starts
with the fetch even though a directory is also given; without a token the
directory run launches the three files of `d` from disk and returns normally. -/
theorem mode_selection_witness :
    (∃ rest, (rootRunE { sampleTokenFlags with cfgDir := "d" } sampleWorld).1 =
      Event.logInfoFetching :: Event.httpPost "T" :: rest) ∧
    (launchCalls (rootRunE sampleDirFlags sampleWorld).1).Perm
      [("d/a", false), ("d/c", false), ("d/inv", false)] ∧
    (rootRunE sampleDirFlags sampleWorld).2 = Outcome.returned none :=
  ⟨((mode_selection { sampleTokenFlags with cfgDir := "d" } sampleWorld rfl).1
      ⟨by decide, by decide⟩).1,
   ((mode_selection sampleDirFlags sampleWorld rfl).2.1 (by decide) (by decide)).2.2.2.2,
   ((mode_selection sampleDirFlags sampleWorld rfl).2.1 (by decide) (by decide)).2.1
     (by unfold allReturn; decide)⟩

end StellarFrpc
